import Mathlib

/-!
Verification development for the TrackNado track-hierarchy compiler.

The definitions below are a shallow embedding of `tracknado/api.py` and
`tracknado/builder.py`: the grouping-key engine (`get_hash`), the metadata
table and the `TrackDesign` compilation pipeline, the `HubBuilder` fluent
configuration object with its merge and JSON sidecar (de)serialization, and
the overlay handling of `HubGenerator._add_tracks_to_hub`.

Machine integers are modelled as `Nat` with explicit `% 2^32` reductions;
pandas missing values (NaN cells) are modelled as `Option.none` table cells;
fallible code paths (Python `assert` / `KeyError` / `ValueError`) are
modelled with `Except String`.
-/

namespace Tracknado

/-! ### MD5 (RFC 1321), over byte lists, 32-bit words as `Nat` mod 2^32 -/

/-- The 2^32 modulus used for all 32-bit arithmetic. -/
def M32 : Nat := 4294967296

/-- Rotate a 32-bit word (a `Nat` below `M32`) left by `s` bits. -/
def rotl (x s : Nat) : Nat := ((x * 2 ^ s) % M32) ||| (x / 2 ^ (32 - s))

/-- Bitwise complement on 32-bit words. -/
def not32 (x : Nat) : Nat := x ^^^ 4294967295

def md5F (b c d : Nat) : Nat := (b &&& c) ||| (not32 b &&& d)
def md5G (b c d : Nat) : Nat := (d &&& b) ||| (not32 d &&& c)
def md5H (b c d : Nat) : Nat := b ^^^ c ^^^ d
def md5I (b c d : Nat) : Nat := c ^^^ (b ||| not32 d)

/-- Per-round shift amounts. -/
def md5S : List Nat :=
  [7, 12, 17, 22, 7, 12, 17, 22, 7, 12, 17, 22, 7, 12, 17, 22,
   5, 9, 14, 20, 5, 9, 14, 20, 5, 9, 14, 20, 5, 9, 14, 20,
   4, 11, 16, 23, 4, 11, 16, 23, 4, 11, 16, 23, 4, 11, 16, 23,
   6, 10, 15, 21, 6, 10, 15, 21, 6, 10, 15, 21, 6, 10, 15, 21]

/-- Per-round additive constants, `floor(abs(sin(i+1)) * 2^32)`. -/
def md5K : List Nat :=
  [3614090360, 3905402710, 606105819, 3250441966, 4118548399, 1200080426, 2821735955, 4249261313,
   1770035416, 2336552879, 4294925233, 2304563134, 1804603682, 4254626195, 2792965006, 1236535329,
   4129170786, 3225465664, 643717713, 3921069994, 3593408605, 38016083, 3634488961, 3889429448,
   568446438, 3275163606, 4107603335, 1163531501, 2850285829, 4243563512, 1735328473, 2368359562,
   4294588738, 2272392833, 1839030562, 4259657740, 2763975236, 1272893353, 4139469664, 3200236656,
   681279174, 3936430074, 3572445317, 76029189, 3654602809, 3873151461, 530742520, 3299628645,
   4096336452, 1126891415, 2878612391, 4237533241, 1700485571, 2399980690, 4293915773, 2240044497,
   1873313359, 4264355552, 2734768916, 1309151649, 4149444226, 3174756917, 718787259, 3951481745]

/-- Append the MD5 padding: a 0x80 byte, zeros to 56 mod 64, then the
64-bit little-endian bit length. -/
def md5Pad (msg : List Nat) : List Nat :=
  let len := msg.length
  let zeros := (120 - ((len + 1) % 64)) % 64
  let bitLen := (len * 8) % (2 ^ 64)
  msg ++ 128 :: List.replicate zeros 0 ++
    (List.range 8).map (fun i => bitLen / 256 ^ i % 256)

/-- Split a byte list into 64-byte chunks; the fuel argument (any bound on
the number of chunks, here the list length) keeps the recursion structural. -/
def chunks64Fuel : Nat → List Nat → List (List Nat)
  | 0, _ => []
  | _, [] => []
  | fuel + 1, b :: rest => (b :: rest).take 64 :: chunks64Fuel fuel ((b :: rest).drop 64)

/-- Split a byte list into 64-byte chunks. -/
def chunks64 (l : List Nat) : List (List Nat) := chunks64Fuel l.length l

/-- Group bytes into little-endian 32-bit words. -/
def bytesToWords : List Nat → List Nat
  | b0 :: b1 :: b2 :: b3 :: rest =>
      (b0 + b1 * 256 + b2 * 65536 + b3 * 16777216) :: bytesToWords rest
  | _ => []

/-- One of the 64 MD5 rounds: state `(a, b, c, d)`, round index `i`,
message words `m`. -/
def md5Round (m : List Nat) (st : Nat × Nat × Nat × Nat) (i : Nat) :
    Nat × Nat × Nat × Nat :=
  let (a, b, c, d) := st
  let f :=
    if i < 16 then md5F b c d
    else if i < 32 then md5G b c d
    else if i < 48 then md5H b c d
    else md5I b c d
  let g :=
    if i < 16 then i
    else if i < 32 then (5 * i + 1) % 16
    else if i < 48 then (3 * i + 5) % 16
    else (7 * i) % 16
  let tmp := (a + f + md5K.getD i 0 + m.getD g 0) % M32
  (d, (b + rotl tmp (md5S.getD i 0)) % M32, b, c)

/-- Process one 64-byte chunk, updating the running digest state. -/
def md5Chunk (h : Nat × Nat × Nat × Nat) (chunk : List Nat) :
    Nat × Nat × Nat × Nat :=
  let m := bytesToWords chunk
  let (a, b, c, d) := (List.range 64).foldl (md5Round m) h
  ((h.1 + a) % M32, (h.2.1 + b) % M32, (h.2.2.1 + c) % M32, (h.2.2.2 + d) % M32)

/-- Serialize a 32-bit word to four little-endian bytes. -/
def wordLE (w : Nat) : List Nat :=
  [w % 256, w / 256 % 256, w / 65536 % 256, w / 16777216 % 256]

/-- The 16-byte MD5 digest of a byte list. -/
def md5Bytes (msg : List Nat) : List Nat :=
  let st := (chunks64 (md5Pad msg)).foldl md5Chunk
    (1732584193, 4023233417, 2562383102, 271733878)
  wordLE st.1 ++ wordLE st.2.1 ++ wordLE st.2.2.1 ++ wordLE st.2.2.2

/-- Lowercase hexadecimal digit for a value below 16. -/
def hexDigit (n : Nat) : Char :=
  if n < 10 then Char.ofNat (48 + n) else Char.ofNat (87 + n)

/-- Lowercase hex rendering of a byte list (two digits per byte). -/
def hexChars (bs : List Nat) : List Char :=
  bs.foldr (fun b acc => hexDigit (b / 16 % 16) :: hexDigit (b % 16) :: acc) []

/-- The 32-character lowercase hex digest, as `hashlib.md5(...).hexdigest()`. -/
def md5Hex (msg : List Nat) : String := String.mk (hexChars (md5Bytes msg))

/-! ### Python `json.dumps` on tuples of scalars -/

/-- A Python scalar as it can appear in a grouping tuple: `None`, a pandas
missing value (float NaN), a bool, an int, or a string. -/
inductive Scalar where
  | null
  | nan
  | boolean (b : Bool)
  | int (n : Int)
  | str (s : String)
deriving DecidableEq

/-- Four lowercase hex digits, for `\uXXXX` escapes. -/
def hex4 (n : Nat) : List Char :=
  [hexDigit (n / 4096 % 16), hexDigit (n / 256 % 16), hexDigit (n / 16 % 16),
   hexDigit (n % 16)]

/-- Escape one character as CPython `json.dumps` does with `ensure_ascii=True`:
printable ASCII other than quote and backslash is kept, the short escapes are
used for the usual control characters, and everything else becomes `\uXXXX`
(a surrogate pair above U+FFFF). -/
def jsonEscapeChar (c : Char) : List Char :=
  if c = '"' then ['\\', '"']
  else if c = '\\' then ['\\', '\\']
  else if c = '\n' then ['\\', 'n']
  else if c = '\r' then ['\\', 'r']
  else if c = '\t' then ['\\', 't']
  else if c.toNat = 8 then ['\\', 'b']
  else if c.toNat = 12 then ['\\', 'f']
  else if 32 ≤ c.toNat && c.toNat < 127 then [c]
  else if c.toNat < 65536 then '\\' :: 'u' :: hex4 c.toNat
  else
    let v := c.toNat - 65536
    '\\' :: 'u' :: hex4 (55296 + v / 1024) ++ '\\' :: 'u' :: hex4 (56320 + v % 1024)

/-- JSON string literal encoding, `ensure_ascii` style. -/
def jsonString (s : String) : String :=
  String.mk ('"' :: s.data.foldr (fun c acc => jsonEscapeChar c ++ acc) ['"'])

/-- JSON encoding of one scalar (`json.dumps` emits `NaN` for float nan). -/
def jsonScalar : Scalar → String
  | Scalar.null => "null"
  | Scalar.nan => "NaN"
  | Scalar.boolean true => "true"
  | Scalar.boolean false => "false"
  | Scalar.int n => toString n
  | Scalar.str s => jsonString s

/-- The `json.dumps` rendering of a Python tuple: a JSON array with the
default item separator `", "`. -/
def jsonTuple (t : List Scalar) : String :=
  "[" ++ String.intercalate (", ") (t.map jsonScalar) ++ "]"

/-- UTF-8 bytes of a pure-ASCII string (all `jsonTuple` output is ASCII,
so the code points are the bytes). -/
def strAsciiBytes (s : String) : List Nat := s.data.map Char.toNat

/-- Embedding of `api.get_hash`:
`hashlib.md5(json.dumps(obj).encode("utf-8")).hexdigest()` applied to an
ordered tuple of scalars. -/
def get_hash (t : List Scalar) : String := md5Hex (strAsciiBytes (jsonTuple t))

/-- Sanity anchor: the digest of the all-null pair matches
`hashlib.md5(json.dumps((None, None)).encode()).hexdigest()` computed by
CPython. -/
theorem get_hash_null_pair :
    get_hash [Scalar.null, Scalar.null] = ("99b7882e388402ba516fb344590f7d41") := by
  decide

/-! ### The metadata table

A pandas DataFrame cell in the track-design table is either a string value
or a missing value (float NaN): `Option String`, with `Option.none` for NaN.
Rows are stored positionally, parallel to the column-name list. -/

abbrev Cell := Option String

/-- How a cell appears inside a grouping tuple handed to `get_hash`:
a present value is a Python `str`, a missing value is a float NaN. -/
def cellScalar : Cell → Scalar
  | Option.none => Scalar.nan
  | some s => Scalar.str s

/-- Hash of a tuple of cells, as `get_hash(tuple(...))` over row values. -/
def tupleHash (t : List Cell) : String := get_hash (t.map cellScalar)

structure Table where
  cols : List String
  rows : List (List Cell)
deriving DecidableEq

/-- Position of a column name in the header list (first occurrence). -/
def colIdx (c : String) : List String → Option Nat
  | [] => Option.none
  | c2 :: rest => if c2 = c then some 0 else (colIdx c rest).map (fun i => i + 1)

/-- Value of a row at a named column (rows are rectangular, parallel to
`cols`; a name outside `cols` can only be reached behind the column-presence
asserts, and yields NaN here). -/
def getCell (cols : List String) (row : List Cell) (c : String) : Cell :=
  match colIdx c cols with
  | some i => (row.get? i).getD Option.none
  | Option.none => Option.none

/-- The ordered tuple `tuple([getattr(row, x) for x in columns])`. -/
def rowTuple (cols sel : List String) (row : List Cell) : List Cell :=
  sel.map (getCell cols row)

/-- Embedding of `api.get_hash_for_df`: one hash per row over the selected
columns, in row order. -/
def get_hash_for_df (tbl : Table) (sel : List String) : List String :=
  tbl.rows.map (fun r => tupleHash (rowTuple tbl.cols sel r))

/-! Python string comparison (code-point lexicographic), kept
kernel-evaluable by working on the character lists directly. -/

def charListLe : List Char → List Char → Bool
  | [], _ => true
  | _ :: _, [] => false
  | a :: as, b :: bs =>
      if a.toNat < b.toNat then true
      else if b.toNat < a.toNat then false
      else charListLe as bs

def strLeb (a b : String) : Bool := charListLe a.data b.data

/-- Ordering on cells as pandas sorts group keys (only non-missing keys are
ever compared, since `groupby` drops NaN keys). -/
def cellLeb : Cell → Cell → Bool
  | Option.none, _ => true
  | some _, Option.none => false
  | some x, some y => strLeb x y

/-- Lexicographic ordering on key tuples. -/
def tupleLeb : List Cell → List Cell → Bool
  | [], _ => true
  | _ :: _, [] => false
  | a :: as, b :: bs => if a = b then tupleLeb as bs else cellLeb a b

instance tupleLeDecidable : DecidableRel (fun a b : List Cell => tupleLeb a b = true) :=
  fun _ _ => instDecidableEqBool _ _

/-- The group keys of `df.groupby(sel)` in iteration order: the distinct
row tuples over `sel` with every component present (pandas `dropna=True`
drops groups whose key contains NaN), sorted ascending (`sort=True`). -/
def sortedGroupKeys (tbl : Table) (sel : List String) : List (List Cell) :=
  List.insertionSort (fun a b => tupleLeb a b = true)
    (((tbl.rows.map (rowTuple tbl.cols sel)).filter (fun t => t.all Option.isSome)).dedup)

/-! Python `dict` semantics: insertion keeps first position on overwrite,
lookup by key. -/

def dictInsert (k : String) (v : α) : List (String × α) → List (String × α)
  | [] => [(k, v)]
  | p :: rest => if p.1 = k then (k, v) :: rest else p :: dictInsert k v rest

def dictLookup (k : String) : List (String × α) → Option α
  | [] => Option.none
  | p :: rest => if p.1 = k then some p.2 else dictLookup k rest

/-- Left fold over a list with a fallible step, stopping at the first
error — the semantics of a Python `for` loop whose body may raise. -/
def exceptFoldl (f : σ → α → Except String σ) : σ → List α → Except String σ
  | s, [] => Except.ok s
  | s, a :: l =>
      match f s a with
      | Except.ok s2 => exceptFoldl f s2 l
      | Except.error e => Except.error e

/-- Prepend an element to a list under `Except`, the head's error taking
precedence. -/
def consE (b : Except String β) (bs : Except String (List β)) :
    Except String (List β) :=
  match b, bs with
  | Except.ok b, Except.ok bs => Except.ok (b :: bs)
  | Except.error e, _ => Except.error e
  | _, Except.error e => Except.error e

theorem consE_ok (b : β) (bs : List β) :
    consE (Except.ok b) (Except.ok bs) = Except.ok (b :: bs) := rfl

/-- Traverse a list with a fallible elementwise function, the first error
winning — the semantics of elementwise pydantic validation. -/
def exceptMapM (f : α → Except String β) : List α → Except String (List β)
  | [] => Except.ok []
  | a :: l => consE (f a) (exceptMapM f l)

/-- Name of a SuperTrack: the defining tuple joined with `_` (for a single
column the joined string is the value itself, as in the source's
`track_id[0]` branch). -/
def superName (t : List Cell) : String :=
  String.intercalate ("_") (t.map (fun c => c.getD ("")))

/-- Embedding of `TrackDesign._get_super_tracks`: one SuperTrack per distinct
non-missing supergroup tuple, keyed by `get_hash` of the tuple, named by the
joined tuple, collected into a dict. -/
def getSuperTracks (tbl : Table) (supercols : List String) :
    Except String (List (String × String)) :=
  if supercols.isEmpty then Except.ok []
  else if supercols.all (fun c => decide (c ∈ tbl.cols)) then
    Except.ok ((sortedGroupKeys tbl supercols).foldl
      (fun d t => dictInsert (tupleHash t) (superName t) d) [])
  else Except.error ("SuperTrack columns missing")

/-- Append a fully-populated string column to the table. -/
def addColumn (tbl : Table) (name : String) (vals : List String) : Table :=
  ⟨tbl.cols ++ [name], (tbl.rows.zip vals).map (fun p => p.1 ++ [some p.2])⟩

/-- Embedding of `TrackDesign._add_supertrack_indicators`: tag every row with
the hash of its supergroup tuple. -/
def addSupertrackIndicators (tbl : Table) (supercols : List String) :
    Except String Table :=
  if supercols.isEmpty then Except.ok tbl
  else if supercols.all (fun c => decide (c ∈ tbl.cols)) then
    Except.ok (addColumn tbl ("supertrack") (get_hash_for_df tbl supercols))
  else Except.error ("SuperTrack columns missing")

/-- The fields of a `trackhub.CompositeTrack` that the compiler computes
(the attached `SubGroupDefinition` objects live in the external `trackhub`
renderer and are not modelled). -/
structure CompositeT where
  name : String
  tracktype : String
  dimensions : Option String
  sortOrder : String
deriving DecidableEq

/-- The fixed dimension slot order `X, Y, A, B, C, D`. -/
def dimSlots : List String :=
  [("dimX"), ("dimY"), ("dimA"), ("dimB"), ("dimC"), ("dimD")]

/-- The source's `dict(zip([f"dim{d}" ...], self._subgroup_columns))`:
`zip` pairs slots with group columns and truncates at the shorter list. -/
def dimensionsDict (subcols : List String) : List (String × String) :=
  dimSlots.zip subcols

/-- The `dimX=col dimY=col ...` string, or `None` when no slot is filled. -/
def dimensionsStr (subcols : List String) : Option String :=
  if (dimensionsDict subcols).isEmpty then Option.none
  else some (String.intercalate (" ")
    ((dimensionsDict subcols).map (fun p => p.1 ++ "=" ++ p.2)))

/-- The `sortOrder` string listing every group column ascending. -/
def sortOrderStr (subcols : List String) : String :=
  String.intercalate (" ") (subcols.map (fun c => c ++ "=+"))

def mkComposite (nm ext : String) (subcols : List String) : CompositeT :=
  ⟨nm, ext, dimensionsStr subcols, sortOrderStr subcols⟩

/-- One iteration of the `(supertrack, ext)` composite loop: look the
supertrack up by its hash (`KeyError` when absent) and register the
composite under the hash of the pair. -/
def compositeStep (superTracks : List (String × String)) (subcols : List String)
    (d : List (String × CompositeT)) (g : List Cell) :
    Except String (List (String × CompositeT)) :=
  match g with
  | [st, ext] =>
    let sth := st.getD ("")
    let extS := ext.getD ("")
    match dictLookup sth superTracks with
    | some stName =>
        Except.ok (dictInsert (get_hash [Scalar.str sth, Scalar.str extS])
          (mkComposite (stName ++ "_" ++ extS) extS subcols) d)
    | Option.none => Except.error ("KeyError: supertrack")
  | _ => Except.error ("KeyError: supertrack")

/-- Embedding of `TrackDesign._get_composite_tracks`: with a supertrack
column, one composite per `(supertrack, ext)` group (a missing supertrack
key raises `KeyError`); otherwise, with group columns declared, one
composite per `ext`; otherwise none. -/
def getCompositeTracks (tbl : Table) (superTracks : List (String × String))
    (subcols : List String) : Except String (List (String × CompositeT)) :=
  if decide (("supertrack") ∈ tbl.cols) then
    exceptFoldl (compositeStep superTracks subcols) []
      (sortedGroupKeys tbl [("supertrack"), ("ext")])
  else if subcols.isEmpty then Except.ok []
  else
    Except.ok ((sortedGroupKeys tbl [("ext")]).foldl
      (fun d g =>
        let extS := (g.headD Option.none).getD ("")
        dictInsert (tupleHash g) (mkComposite extS extS subcols) d) [])

/-- Embedding of `TrackDesign._add_composite_track_indicators`: tag every row
with the hash of its `(supertrack?, ext)` tuple and assert every tag resolves
to a created composite. -/
def addCompositeIndicators (tbl : Table) (composites : List (String × CompositeT))
    (supercols : List String) : Except String Table :=
  if composites.isEmpty then Except.ok tbl
  else
    let selcols := (if supercols.isEmpty then [] else [("supertrack")]) ++ [("ext")]
    let tags := get_hash_for_df tbl selcols
    if tags.all (fun t => (dictLookup t composites).isSome) then
      Except.ok (addColumn tbl ("composite") tags)
    else Except.error ("Composite tracks not found in details dataframe")

/-- Embedding of `TrackDesign._get_overlay_tracks`. With a supertrack column
the group key is destructured as a pair, so two or more overlay columns raise
`ValueError` there; a single overlay column yields overlays named
`{supertrack}_{value}_overlay` keyed by the flat hash. Without a supertrack
column, one overlay per distinct overlay tuple, named by the joined values. -/
def getOverlayTracks (tbl : Table) (superTracks : List (String × String))
    (overlaycols : List String) : Except String (List (String × String)) :=
  if overlaycols.isEmpty then Except.ok []
  else if !overlaycols.all (fun c => decide (c ∈ tbl.cols)) then
    Except.error ("Overlay columns missing")
  else if decide (("supertrack") ∈ tbl.cols) then
    exceptFoldl
      (fun d g =>
        match g with
        | [st, ov] =>
          let sth := st.getD ("")
          let ovS := ov.getD ("")
          match dictLookup sth superTracks with
          | some stName =>
              Except.ok (dictInsert (get_hash [Scalar.str sth, Scalar.str ovS])
                (stName ++ "_" ++ ovS ++ "_overlay") d)
          | Option.none => Except.error ("KeyError: supertrack")
        | _ => Except.error ("ValueError: too many values to unpack"))
      [] (sortedGroupKeys tbl (("supertrack") :: overlaycols))
  else
    Except.ok ((sortedGroupKeys tbl overlaycols).foldl
      (fun d g => dictInsert (tupleHash g)
        (String.intercalate ("_") (g.map (fun c => c.getD ("")))) d) [])

/-- Embedding of `TrackDesign._add_overlay_track_indicators`: tag every row
(nulls included) with the hash of its `(supertrack?, overlay columns)` tuple
and assert every tag resolves to a created overlay. -/
def addOverlayIndicators (tbl : Table) (overlays : List (String × String))
    (overlaycols supercols : List String) : Except String Table :=
  if overlaycols.isEmpty then Except.ok tbl
  else
    let selcols := (if supercols.isEmpty then [] else [("supertrack")]) ++ overlaycols
    let tags := get_hash_for_df tbl selcols
    if tags.all (fun t => (dictLookup t overlays).isSome) then
      Except.ok (addColumn tbl ("overlay") tags)
    else Except.error ("Overlay tracks not found in details dataframe")

/-- The checks of `TrackDesign._add_subgroupings` (the attachment of
`trackhub.SubGroupDefinition` objects to the dataframe is renderer data and
is not modelled): group columns must exist in the table, and must be
disjoint from the supergroup columns. -/
def checkSubgroupings (tbl : Table) (subcols supercols : List String) :
    Except String Unit :=
  if subcols.isEmpty then Except.ok ()
  else if !subcols.all (fun c => decide (c ∈ tbl.cols)) then
    Except.error ("Subgroup-By columns missing")
  else if !supercols.isEmpty && subcols.any (fun c => decide (c ∈ supercols)) then
    Except.error ("SubGroup columns cannot be in SuperGroup columns")
  else Except.ok ()

/-- The compiled hierarchy: the tagged table plus the three container dicts. -/
structure Design where
  details : Table
  superTracks : List (String × String)
  compositeTracks : List (String × CompositeT)
  overlayTracks : List (String × String)
deriving DecidableEq

/-- Embedding of `TrackDesign.__init__` (with `color_by=None`): the stages
run in dependency order, each raising on its own assert. -/
def compileDesign (details : Table)
    (subgroup_by supergroup_by overlay_by : List String) :
    Except String Design := do
  let _ ← checkSubgroupings details subgroup_by supergroup_by
  let sts ← getSuperTracks details supergroup_by
  let t2 ← addSupertrackIndicators details supergroup_by
  let comps ← getCompositeTracks t2 sts subgroup_by
  let t3 ← addCompositeIndicators t2 comps supergroup_by
  let ovs ← getOverlayTracks t3 sts overlay_by
  let t4 ← addOverlayIndicators t3 ovs overlay_by supergroup_by
  return ⟨t4, sts, comps, ovs⟩

/-! ### HubBuilder (`tracknado/builder.py`)

The builder is a pydantic model; its state is embedded below. Metadata
extractors are opaque callables compared by identity in `merge`, so they are
modelled by an arbitrary type `E` with decidable equality. -/

/-- A JSON value, for the sidecar document and the free-form
`custom_genome_config : dict[str, Any]`. -/
inductive Json where
  | null
  | boolean (b : Bool)
  | num (n : Int)
  | str (s : String)
  | arr (xs : List Json)
  | obj (fields : List (String × Json))

/-- Embedding of `models.Track`: path, optional name, string metadata,
optional validated color, optional track type. -/
structure TrackM where
  path : String
  name : Option String
  metadata : List (String × String)
  color : Option (Nat × Nat × Nat)
  track_type : Option String
deriving DecidableEq

/-- Embedding of `builder.HubBuilder` state. -/
structure HubBuilderM (E : Type) where
  tracks : List TrackM
  group_by_cols : List String
  supergroup_by_cols : List String
  overlay_by_cols : List String
  color_by_col : Option String
  color_palette : String
  convert_files : Bool
  chrom_sizes : Option String
  custom_genome_config : List (String × Json)
  metadata_extractors : List E

/-- Embedding of `HubBuilder.group_by`: append to the supergroup list when
`as_supertrack`, otherwise to the group list. -/
def HubBuilderM.group_by (b : HubBuilderM E) (columns : List String)
    (as_supertrack : Bool) : HubBuilderM E :=
  if as_supertrack then
    { b with supergroup_by_cols := b.supergroup_by_cols ++ columns }
  else
    { b with group_by_cols := b.group_by_cols ++ columns }

/-- Embedding of `HubBuilder.overlay_by`: append to the overlay list. -/
def HubBuilderM.overlay_by (b : HubBuilderM E) (columns : List String) :
    HubBuilderM E :=
  { b with overlay_by_cols := b.overlay_by_cols ++ columns }

/-- Embedding of `HubBuilder.color_by`: set the color column and palette. -/
def HubBuilderM.color_by (b : HubBuilderM E) (column : String)
    (palette : String) : HubBuilderM E :=
  { b with color_by_col := some column, color_palette := palette }

/-- Python truthiness of `self.color_by_col` (`None` and `""` are falsy). -/
def colorFalsy : Option String → Bool
  | Option.none => true
  | some s => s.isEmpty

/-- Python `sorted(list(set(xs + ys)))` over strings. -/
def sortedUnion (xs ys : List String) : List String :=
  List.insertionSort (fun a b => strLeb a b = true) ((xs ++ ys).dedup)

instance strLeDecidable : DecidableRel (fun a b : String => strLeb a b = true) :=
  fun _ _ => instDecidableEqBool _ _

/-- One iteration of the `for other in others` loop of `HubBuilder.merge`:
concatenate tracks, take the sorted set union of each axis column list,
append the other's unseen extractors, and adopt the other's color axis only
when this builder's is falsy. -/
def mergeOne [DecidableEq E] (self other : HubBuilderM E) : HubBuilderM E :=
  { self with
    tracks := self.tracks ++ other.tracks
    group_by_cols := sortedUnion self.group_by_cols other.group_by_cols
    supergroup_by_cols := sortedUnion self.supergroup_by_cols other.supergroup_by_cols
    overlay_by_cols := sortedUnion self.overlay_by_cols other.overlay_by_cols
    metadata_extractors := other.metadata_extractors.foldl
      (fun acc ex => if ex ∈ acc then acc else acc ++ [ex]) self.metadata_extractors
    color_by_col :=
      if colorFalsy self.color_by_col then other.color_by_col else self.color_by_col
    color_palette :=
      if colorFalsy self.color_by_col then other.color_palette else self.color_palette }

/-- Embedding of `HubBuilder.merge(*others)` as a value transformer. -/
def HubBuilderM.merge [DecidableEq E] (self : HubBuilderM E)
    (others : List (HubBuilderM E)) : HubBuilderM E :=
  others.foldl mergeOne self

/-- One step of `merge`'s loop on a heap of builder objects: read the
receiver at `i` and the argument at `j`, store the merged receiver back at
`i`. -/
def heapMergeStep [DecidableEq E] (i : Nat) (h : List (HubBuilderM E))
    (j : Nat) : List (HubBuilderM E) :=
  match h.get? i, h.get? j with
  | some s, some o => h.set i (mergeOne s o)
  | _, _ => h

/-- A heap of builder objects, to state reference-level properties of
`merge` (which mutates the receiver in place and returns it). -/
def heapMerge [DecidableEq E] (heap : List (HubBuilderM E)) (i : Nat)
    (js : List Nat) : List (HubBuilderM E) × Nat :=
  (js.foldl (heapMergeStep i) heap, i)

/-! JSON sidecar serialization, mirroring `model_dump_json` /
`model_validate_json` field by field at the level of the JSON document
(`metadata_extractors` carries `exclude=True` and is absent). -/

def optStrJson : Option String → Json
  | Option.none => Json.null
  | some s => Json.str s

def colorToJson : Option (Nat × Nat × Nat) → Json
  | some c => Json.arr [Json.num c.1, Json.num c.2.1, Json.num c.2.2]
  | Option.none => Json.null

def trackToJson (t : TrackM) : Json :=
  Json.obj
    [(("path"), Json.str t.path),
     (("name"), optStrJson t.name),
     (("metadata"), Json.obj (t.metadata.map (fun p => (p.1, Json.str p.2)))),
     (("color"), colorToJson t.color),
     (("track_type"), optStrJson t.track_type)]

/-- Embedding of `HubBuilder.to_json` (the serialized document). -/
def builderToJson (b : HubBuilderM E) : Json :=
  Json.obj
    [(("tracks"), Json.arr (b.tracks.map trackToJson)),
     (("group_by_cols"), Json.arr (b.group_by_cols.map Json.str)),
     (("supergroup_by_cols"), Json.arr (b.supergroup_by_cols.map Json.str)),
     (("overlay_by_cols"), Json.arr (b.overlay_by_cols.map Json.str)),
     (("color_by_col"), optStrJson b.color_by_col),
     (("color_palette"), Json.str b.color_palette),
     (("convert_files"), Json.boolean b.convert_files),
     (("chrom_sizes"), optStrJson b.chrom_sizes),
     (("custom_genome_config"), Json.obj b.custom_genome_config)]

def jsonAsStr : Json → Except String String
  | Json.str s => Except.ok s
  | _ => Except.error ("expected string")

def jsonAsOptStr : Json → Except String (Option String)
  | Json.null => Except.ok Option.none
  | Json.str s => Except.ok (some s)
  | _ => Except.error ("expected string or null")

def jsonAsBool : Json → Except String Bool
  | Json.boolean b => Except.ok b
  | _ => Except.error ("expected bool")

def jsonAsStrList : Json → Except String (List String)
  | Json.arr xs => exceptMapM jsonAsStr xs
  | _ => Except.error ("expected array of strings")

def jsonAsStrMap : Json → Except String (List (String × String))
  | Json.obj fs => exceptMapM (fun p => (jsonAsStr p.2).map (fun v => (p.1, v))) fs
  | _ => Except.error ("expected object of strings")

/-- One color channel: an int in `[0, 255]`, per the `Track.color`
field validator. -/
def jsonAsChannel : Json → Except String Nat
  | Json.num n =>
      if 0 ≤ n && n ≤ 255 then Except.ok n.toNat
      else Except.error ("Color values must be 0-255")
  | _ => Except.error ("expected int")

def jsonAsColor : Json → Except String (Option (Nat × Nat × Nat))
  | Json.null => Except.ok Option.none
  | Json.arr [r, g, b] => do
      let r ← jsonAsChannel r
      let g ← jsonAsChannel g
      let b ← jsonAsChannel b
      return some (r, g, b)
  | _ => Except.error ("expected color triple or null")

def jsonAsObj : Json → Except String (List (String × Json))
  | Json.obj fs => Except.ok fs
  | _ => Except.error ("expected object")

/-- Read a field of the document, with the pydantic default when absent. -/
def jField (fs : List (String × Json)) (k : String) (dflt : Json) : Json :=
  (dictLookup k fs).getD dflt

/-- Validation of one serialized track (`path` is required; the other
fields default). -/
def trackFromJson (j : Json) : Except String TrackM := do
  let fs ← jsonAsObj j
  let path ← match dictLookup ("path") fs with
    | some v => jsonAsStr v
    | Option.none => Except.error ("path is required")
  let name ← jsonAsOptStr (jField fs ("name") Json.null)
  let metadata ← jsonAsStrMap (jField fs ("metadata") (Json.obj []))
  let color ← jsonAsColor (jField fs ("color") Json.null)
  let track_type ← jsonAsOptStr (jField fs ("track_type") Json.null)
  return ⟨path, name, metadata, color, track_type⟩

/-- Embedding of `HubBuilder.from_json` / `model_validate_json`: rebuild the
builder from the document; unknown fields are ignored, known fields default
when absent, and the non-serialized extractor list comes back empty. -/
def builderFromJson (j : Json) : Except String (HubBuilderM E) := do
  let fs ← jsonAsObj j
  let tracksJson ← match jField fs ("tracks") (Json.arr []) with
    | Json.arr xs => Except.ok xs
    | _ => Except.error ("expected track array")
  let tracks ← exceptMapM trackFromJson tracksJson
  let group_by_cols ← jsonAsStrList (jField fs ("group_by_cols") (Json.arr []))
  let supergroup_by_cols ← jsonAsStrList (jField fs ("supergroup_by_cols") (Json.arr []))
  let overlay_by_cols ← jsonAsStrList (jField fs ("overlay_by_cols") (Json.arr []))
  let color_by_col ← jsonAsOptStr (jField fs ("color_by_col") Json.null)
  let color_palette ← jsonAsStr (jField fs ("color_palette") (Json.str ("tab20")))
  let convert_files ← jsonAsBool (jField fs ("convert_files") (Json.boolean false))
  let chrom_sizes ← jsonAsOptStr (jField fs ("chrom_sizes") Json.null)
  let custom_genome_config ← jsonAsObj (jField fs ("custom_genome_config") (Json.obj []))
  return ⟨tracks, group_by_cols, supergroup_by_cols, overlay_by_cols, color_by_col,
    color_palette, convert_files, chrom_sizes, custom_genome_config, []⟩

/-! ### Hub assembly (`HubGenerator._add_tracks_to_hub`) -/

/-- A row of the compiled details table as the assembly loop reads it:
its name, its resolved format, and its optional container tags. -/
structure HubRow where
  name : String
  ext : String
  supertrack : Option String
  composite : Option String
  overlay : Option String
deriving DecidableEq

/-- The container state the loop mutates: direct trackdb tracks, per-key
composite and overlay subtrack lists, and the logged warnings (a warning is
recorded as the offending row's name with the overlay's name). -/
structure HubState where
  rootTracks : List HubRow
  compositeSubs : List (String × List HubRow)
  overlaySubs : List (String × List HubRow)
  warnings : List (String × String)
deriving DecidableEq

/-- Append a subtrack to the container stored at key `k`. -/
def dictAppendRow (k : String) (r : HubRow) :
    List (String × List HubRow) → List (String × List HubRow)
  | [] => []
  | p :: rest =>
      if p.1 = k then (p.1, p.2 ++ [r]) :: rest else p :: dictAppendRow k r rest

/-- One iteration of the row loop of `_add_tracks_to_hub`: attach the row to
its composite if tagged; attach it to its overlay if tagged, except that a
row whose format is not `bigWig` is skipped with one warning; a row with no
supertrack, composite or overlay tag goes directly into the trackdb. -/
def processRow (composites overlays : List (String × String))
    (st : HubState) (r : HubRow) : Except String HubState := do
  let (hasComposite, st) ← match r.composite with
    | some ck =>
        match dictLookup ck composites with
        | some _ => Except.ok (true, { st with compositeSubs := dictAppendRow ck r st.compositeSubs })
        | Option.none => Except.error ("KeyError: composite")
    | Option.none => Except.ok (false, st)
  let (hasOverlay, st) ← match r.overlay with
    | some ok =>
        match dictLookup ok overlays with
        | some oname =>
            if r.ext = ("bigWig") then
              Except.ok (true, { st with overlaySubs := dictAppendRow ok r st.overlaySubs })
            else
              Except.ok (true, { st with warnings := st.warnings ++ [(r.name, oname)] })
        | Option.none => Except.error ("KeyError: overlay")
    | Option.none => Except.ok (false, st)
  if r.supertrack.isNone && !hasComposite && !hasOverlay then
    return { st with rootTracks := st.rootTracks ++ [r] }
  else
    return st

/-- Embedding of the row loop of `HubGenerator._add_tracks_to_hub`, starting
from the freshly created containers (each with an empty subtrack list). -/
def addTracksToHub (rows : List HubRow)
    (composites overlays : List (String × String)) : Except String HubState :=
  exceptFoldl (processRow composites overlays)
    ⟨[], composites.map (fun p => (p.1, [])), overlays.map (fun p => (p.1, [])), []⟩
    rows

set_option maxRecDepth 8000

/-! ### Supporting lemmas -/

theorem hexChars_cons (b : Nat) (bs : List Nat) :
    hexChars (b :: bs) = hexDigit (b / 16 % 16) :: hexDigit (b % 16) :: hexChars bs := rfl

theorem length_hexChars (bs : List Nat) : (hexChars bs).length = 2 * bs.length := by
  induction bs with
  | nil => rfl
  | cons b bs ih => rw [hexChars_cons]; simp [ih]; omega

theorem length_md5Bytes (msg : List Nat) : (md5Bytes msg).length = 16 := by
  simp only [md5Bytes, wordLE, List.length_append, List.length_cons, List.length_nil]

theorem md5Hex_length (msg : List Nat) : (md5Hex msg).length = 32 := by
  have h : (md5Hex msg).length = (hexChars (md5Bytes msg)).length := rfl
  rw [h, length_hexChars, length_md5Bytes]

theorem charListLe_total : ∀ as bs, charListLe as bs = true ∨ charListLe bs as = true := by
  intro as
  induction as with
  | nil => intro bs; left; rfl
  | cons a as ih =>
    intro bs
    cases bs with
    | nil => right; rfl
    | cons b bs =>
      rcases Nat.lt_trichotomy a.toNat b.toNat with h | h | h
      · left; simp [charListLe, h]
      · have h2 : ¬ a.toNat < b.toNat := by omega
        have h3 : ¬ b.toNat < a.toNat := by omega
        rcases ih bs with hl | hr
        · left; simp [charListLe, h2, h3, hl]
        · right; simp [charListLe, h2, h3, hr]
      · right; simp [charListLe, h]

theorem charListLe_trans : ∀ as bs cs, charListLe as bs = true →
    charListLe bs cs = true → charListLe as cs = true := by
  intro as
  induction as with
  | nil => intro bs cs h1 h2; rfl
  | cons a as ih =>
    intro bs cs h1 h2
    cases bs with
    | nil => simp [charListLe] at h1
    | cons b bs =>
      cases cs with
      | nil => simp [charListLe] at h2
      | cons c cs =>
        rcases Nat.lt_trichotomy a.toNat b.toNat with hab | hab | hab <;>
          rcases Nat.lt_trichotomy b.toNat c.toNat with hbc | hbc | hbc
        · simp [charListLe, show a.toNat < c.toNat by omega]
        · simp [charListLe, show a.toNat < c.toNat by omega]
        · simp [charListLe, show ¬ b.toNat < c.toNat by omega, hbc] at h2
        · simp [charListLe, show a.toNat < c.toNat by omega]
        · simp only [charListLe, show ¬ a.toNat < b.toNat by omega,
            show ¬ b.toNat < a.toNat by omega, if_neg, ite_false] at h1
          simp only [charListLe, show ¬ b.toNat < c.toNat by omega,
            show ¬ c.toNat < b.toNat by omega, if_neg, ite_false] at h2
          simp only [charListLe, show ¬ a.toNat < c.toNat by omega,
            show ¬ c.toNat < a.toNat by omega, if_neg, ite_false]
          exact ih bs cs h1 h2
        · simp [charListLe, show ¬ b.toNat < c.toNat by omega, hbc] at h2
        · simp [charListLe, show ¬ a.toNat < b.toNat by omega, hab] at h1
        · simp [charListLe, show ¬ a.toNat < b.toNat by omega, hab] at h1
        · simp [charListLe, show ¬ a.toNat < b.toNat by omega, hab] at h1

instance strLeTrans : IsTrans String (fun a b => strLeb a b = true) :=
  ⟨fun a b c h1 h2 => charListLe_trans a.data b.data c.data h1 h2⟩

instance strLeTotal : IsTotal String (fun a b => strLeb a b = true) :=
  ⟨fun a b => charListLe_total a.data b.data⟩

/-- What `sorted(list(set(xs + ys)))` produces: a duplicate-free ascending
list holding exactly the union of the two input lists. -/
def IsSortedUnion (xs ys zs : List String) : Prop :=
  zs.Nodup ∧ List.Sorted (fun a b => strLeb a b = true) zs ∧
    ∀ s, s ∈ zs ↔ s ∈ xs ∨ s ∈ ys

theorem sortedUnion_spec (xs ys : List String) :
    IsSortedUnion xs ys (sortedUnion xs ys) := by
  refine ⟨?_, ?_, ?_⟩
  · exact ((List.perm_insertionSort _ _).symm).nodup (List.nodup_dedup _)
  · exact List.sorted_insertionSort _ _
  · intro s
    rw [sortedUnion, List.mem_insertionSort, List.mem_dedup, List.mem_append]

/-! ### C1 -/

/-- C1: the grouping key function is total and deterministic — it is exactly
the 32-hex-character MD5 digest of the tuple's JSON encoding, so equal tuples
(including tuples of nulls) always produce the identical key, with no
dependence on anything but the tuple's values. -/
theorem get_hash_total_deterministic (t1 t2 : List Scalar) :
    (t1 = t2 → get_hash t1 = get_hash t2) ∧
    get_hash t1 = md5Hex (strAsciiBytes (jsonTuple t1)) ∧
    (get_hash t1).length = 32 :=
  ⟨fun h => by rw [h], rfl, md5Hex_length _⟩

/-- Witness for C1 at the all-null pair. -/
theorem get_hash_total_deterministic_witness :
    get_hash [Scalar.null, Scalar.null] = get_hash [Scalar.null, Scalar.null] ∧
    (get_hash [Scalar.null, Scalar.null]).length = 32 :=
  ⟨(get_hash_total_deterministic [Scalar.null, Scalar.null] [Scalar.null, Scalar.null]).1 rfl,
   (get_hash_total_deterministic [Scalar.null, Scalar.null] [Scalar.null, Scalar.null]).2.2⟩

/-! ### C10 -/

/-- C10: `color_by` replaces the color axis (a second call erases every trace
of the first), while `group_by` and `overlay_by` append their arguments to
the corresponding axis list on every call. -/
theorem color_by_replaces_others_append {E : Type} (b : HubBuilderM E)
    (c1 p1 c2 p2 : String) (cs1 cs2 os1 os2 : List String) :
    ((b.color_by c1 p1).color_by c2 p2) = b.color_by c2 p2 ∧
    ((b.color_by c1 p1).color_by c2 p2).color_by_col = some c2 ∧
    ((b.color_by c1 p1).color_by c2 p2).color_palette = p2 ∧
    ((b.group_by cs1 false).group_by cs2 false).group_by_cols =
      b.group_by_cols ++ cs1 ++ cs2 ∧
    ((b.overlay_by os1).overlay_by os2).overlay_by_cols =
      b.overlay_by_cols ++ os1 ++ os2 := by
  refine ⟨rfl, rfl, rfl, ?_, rfl⟩
  simp [HubBuilderM.group_by]

/-! ### C4 -/

/-- A builder whose color axis is the single column `z`. -/
def cexA : HubBuilderM Unit :=
  ⟨[], [], [], [], some ("z"), ("tab20"), false, Option.none, [], []⟩

/-- A builder whose color axis is the single column `a`. -/
def cexB : HubBuilderM Unit :=
  ⟨[], [], [], [], some ("a"), ("tab20"), false, Option.none, [], []⟩

/-- The color axis of a builder viewed as a (zero- or one-element) column
list. -/
def colorAxisList : Option String → List String
  | Option.none => []
  | some c => [c]

/-- C4 counterexample: for builders with color axes `z` and `a`, the merged
builder keeps `z`, which is not the sorted set union `[a, z]` of the two
color-axis lists — so the claim fails for the color axis kind. -/
theorem merge_axis_union_counterexample :
    ¬ ((mergeOne cexA cexB).group_by_cols =
         sortedUnion cexA.group_by_cols cexB.group_by_cols ∧
       (mergeOne cexA cexB).supergroup_by_cols =
         sortedUnion cexA.supergroup_by_cols cexB.supergroup_by_cols ∧
       (mergeOne cexA cexB).overlay_by_cols =
         sortedUnion cexA.overlay_by_cols cexB.overlay_by_cols ∧
       colorAxisList (mergeOne cexA cexB).color_by_col =
         sortedUnion (colorAxisList cexA.color_by_col)
           (colorAxisList cexB.color_by_col)) := by
  decide

/-- C4 amended: for the three list-valued axis kinds (supergroup, group,
overlay) the merged axis list is the sorted set union of the two builders'
lists; the color axis is instead resolved first-non-empty-wins — the
receiver's color column and palette are kept when the receiver's color
column is truthy, otherwise the other's are adopted. -/
theorem merge_axis_sorted_union {E : Type} [DecidableEq E]
    (A B : HubBuilderM E) :
    IsSortedUnion A.group_by_cols B.group_by_cols (mergeOne A B).group_by_cols ∧
    IsSortedUnion A.supergroup_by_cols B.supergroup_by_cols
      (mergeOne A B).supergroup_by_cols ∧
    IsSortedUnion A.overlay_by_cols B.overlay_by_cols
      (mergeOne A B).overlay_by_cols ∧
    (mergeOne A B).color_by_col =
      (if colorFalsy A.color_by_col then B.color_by_col else A.color_by_col) ∧
    (mergeOne A B).color_palette =
      (if colorFalsy A.color_by_col then B.color_palette else A.color_palette) :=
  ⟨sortedUnion_spec _ _, sortedUnion_spec _ _, sortedUnion_spec _ _, rfl, rfl⟩

/-! ### C7 -/

/-- C7: a declared group column that is absent from the table, or that also
appears among the supergroup columns, makes compilation fail with the
corresponding configuration error from the subgrouping checks — the first
stage of the pipeline, before any SuperTrack, Composite or Overlay is
derived. -/
theorem config_error_before_containers (tbl : Table)
    (sub sup ov : List String)
    (h : (∃ c ∈ sub, c ∉ tbl.cols) ∨ (sup ≠ [] ∧ ∃ c ∈ sub, c ∈ sup)) :
    compileDesign tbl sub sup ov = Except.error ("Subgroup-By columns missing") ∨
    compileDesign tbl sub sup ov =
      Except.error ("SubGroup columns cannot be in SuperGroup columns") := by
  have hne : ¬ sub.isEmpty := by
    rcases h with ⟨c, hc, _⟩ | ⟨_, c, hc, _⟩ <;>
      · cases sub <;> simp_all [List.isEmpty]
  by_cases hall : sub.all (fun c => decide (c ∈ tbl.cols))
  · right
    have hover : (!sup.isEmpty && sub.any (fun c => decide (c ∈ sup))) = true := by
      rcases h with ⟨c, hc, habs⟩ | ⟨hsup, c, hc, hmem⟩
      · exact absurd ((List.all_eq_true.mp hall) c hc) (by simpa using habs)
      · have h1 : ¬ sup.isEmpty := by cases sup <;> simp_all [List.isEmpty]
        have h2 : sub.any (fun c => decide (c ∈ sup)) := by
          exact List.any_eq_true.mpr ⟨c, hc, by simpa using hmem⟩
        simp [h1, h2]
    have hcheck : checkSubgroupings tbl sub sup =
        Except.error ("SubGroup columns cannot be in SuperGroup columns") := by
      simp [checkSubgroupings, hne, hall, hover]
    simp [compileDesign, hcheck, bind, Except.bind]
  · left
    have hcheck : checkSubgroupings tbl sub sup =
        Except.error ("Subgroup-By columns missing") := by
      simp [checkSubgroupings, hne, hall]
    simp [compileDesign, hcheck, bind, Except.bind]

/-- Witness for C7: the group column `b` is absent from a table with the
single column `a`. -/
theorem config_error_before_containers_witness :
    compileDesign ⟨[("a")], [[some ("v")]]⟩ [("b")] [] [] =
      Except.error ("Subgroup-By columns missing") ∨
    compileDesign ⟨[("a")], [[some ("v")]]⟩ [("b")] [] [] =
      Except.error ("SubGroup columns cannot be in SuperGroup columns") :=
  config_error_before_containers ⟨[("a")], [[some ("v")]]⟩ [("b")] [] []
    (Or.inl ⟨("b"), by decide, by decide⟩)

/-! ### C3 -/

set_option maxRecDepth 100000

/-- The failing input for C3: a single declared overlay column `sample`,
one row with value `X` and one row with a missing value. -/
def tblC3 : Table := ⟨[("sample")], [[some ("X")], [Option.none]]⟩

/-- C3: on the failing input, `_get_overlay_tracks` creates an overlay only
for the non-null group, yet `_add_overlay_track_indicators` computes a tag
for the null row too (the hash of the NaN tuple), so the membership assert
fails and compilation aborts with `AssertionError` — the null row does not
opt out recoverably as the claim states. -/
theorem null_overlay_row_aborts_compile :
    compileDesign tblC3 [] [] [("sample")] =
      Except.error ("Overlay tracks not found in details dataframe") ∧
    get_hash_for_df tblC3 [("sample")] =
      [get_hash [Scalar.str ("X")], get_hash [Scalar.nan]] ∧
    (getOverlayTracks tblC3 [] [("sample")]).map (fun d => d.map Prod.fst) =
      Except.ok [get_hash [Scalar.str ("X")]] :=
  ⟨rfl, rfl, rfl⟩

/-! ### C6 -/

/-- A table with seven declared group columns (plus `ext`). -/
def tblC6 : Table :=
  ⟨[("ext"), ("c1"), ("c2"), ("c3"), ("c4"), ("c5"), ("c6"), ("c7")],
   [[some ("bigWig"), some ("a1"), some ("a2"), some ("a3"), some ("a4"),
     some ("a5"), some ("a6"), some ("a7")]]⟩

/-- The seven declared group columns of the C6 counterexample. -/
def subC6 : List String :=
  [("c1"), ("c2"), ("c3"), ("c4"), ("c5"), ("c6"), ("c7")]

/-- C6 counterexample: declaring seven group columns is not rejected —
compilation succeeds, and the composite's dimension string silently assigns
only the first six columns to the slots, dropping `c7` (which still appears
in the sort order). -/
theorem too_many_dims_not_rejected :
    (compileDesign tblC6 subC6 [] []).isOk = true ∧
    (compileDesign tblC6 subC6 [] []).map
        (fun d => d.compositeTracks.map (fun p => p.2.dimensions)) =
      Except.ok [some ("dimX=c1 dimY=c2 dimA=c3 dimB=c4 dimC=c5 dimD=c6")] ∧
    (compileDesign tblC6 subC6 [] []).map
        (fun d => d.compositeTracks.map (fun p => p.2.sortOrder)) =
      Except.ok [("c1=+ c2=+ c3=+ c4=+ c5=+ c6=+ c7=+")] :=
  ⟨rfl, rfl, rfl⟩

/-! ### C9 -/

theorem heapMergeFold {E : Type} [DecidableEq E] :
    ∀ (js : List Nat) (heap0 h : List (HubBuilderM E)) (i : Nat)
      (cur : HubBuilderM E) (others : List (HubBuilderM E)),
      h.length = heap0.length →
      i < heap0.length →
      h.get? i = some cur →
      (∀ j, j ≠ i → h.get? j = heap0.get? j) →
      i ∉ js →
      js.map (fun j => heap0.get? j) = others.map some →
      (js.foldl (heapMergeStep i) h).get? i = some (others.foldl mergeOne cur) ∧
      (∀ j, j ≠ i → (js.foldl (heapMergeStep i) h).get? j = heap0.get? j) := by
  intro js
  induction js with
  | nil =>
    intro heap0 h i cur others hlen hi hcur hoth hnot hmap
    cases others with
    | nil => exact ⟨hcur, hoth⟩
    | cons o os => simp at hmap
  | cons j js ih =>
    intro heap0 h i cur others hlen hi hcur hoth hnot hmap
    cases others with
    | nil => simp at hmap
    | cons o os =>
      simp only [List.map_cons, List.cons.injEq] at hmap
      obtain ⟨hj, hmap'⟩ := hmap
      have hji : j ≠ i := fun he => hnot (he ▸ List.mem_cons_self j js)
      have hhj : h.get? j = some o := by rw [hoth j hji, hj]
      have hstep : heapMergeStep i h j = h.set i (mergeOne cur o) := by
        unfold heapMergeStep
        rw [hcur, hhj]
      have hnot' : i ∉ js := fun hm => hnot (List.mem_cons_of_mem _ hm)
      have hlen' : (h.set i (mergeOne cur o)).length = heap0.length := by
        rw [List.length_set]; exact hlen
      have hcur' : (h.set i (mergeOne cur o)).get? i = some (mergeOne cur o) := by
        rw [List.get?_eq_getElem?]
        exact List.getElem?_set_self (by omega)
      have hoth' : ∀ j2, j2 ≠ i → (h.set i (mergeOne cur o)).get? j2 = heap0.get? j2 := by
        intro j2 hj2
        rw [List.get?_eq_getElem?, List.getElem?_set_ne (fun he => hj2 he.symm),
          ← List.get?_eq_getElem?]
        exact hoth j2 hj2
      have hrest := ih heap0 (h.set i (mergeOne cur o)) i (mergeOne cur o) os
        hlen' hi hcur' hoth' hnot' hmap'
      rw [List.foldl_cons, hstep]
      exact hrest

/-- C9: `merge(*others)` returns the receiver itself (the same heap index it
mutated, now holding the fold of `mergeOne` over the argument values), and
leaves every other heap cell — in particular every argument builder —
untouched. -/
theorem merge_returns_receiver_reads_args {E : Type} [DecidableEq E]
    (heap : List (HubBuilderM E)) (i : Nat) (js : List Nat)
    (self : HubBuilderM E) (others : List (HubBuilderM E))
    (hi : i < heap.length) (hnotin : i ∉ js)
    (hself : heap.get? i = some self)
    (hothers : js.map (fun j => heap.get? j) = others.map some) :
    (heapMerge heap i js).2 = i ∧
    (∀ j, j ≠ i → (heapMerge heap i js).1.get? j = heap.get? j) ∧
    (heapMerge heap i js).1.get? i = some (self.merge others) := by
  have h := heapMergeFold js heap heap i self others rfl hi hself
    (fun _ _ => rfl) hnotin hothers
  exact ⟨rfl, h.2, h.1⟩

/-- A builder with a group axis and no color axis. -/
def wbA : HubBuilderM Unit :=
  ⟨[], [("g1")], [], [], Option.none, ("tab20"), false, Option.none, [], []⟩

/-- A builder with a group axis, a color axis and a palette. -/
def wbB : HubBuilderM Unit :=
  ⟨[], [("g0")], [], [], some ("c"), ("viridis"), true, Option.none, [], []⟩

/-- Witness for C9 on a two-cell heap, merging cell 1 into cell 0. -/
theorem merge_returns_receiver_reads_args_witness :
    (heapMerge [wbA, wbB] 0 [1]).2 = 0 ∧
    (heapMerge [wbA, wbB] 0 [1]).1.get? 1 = [wbA, wbB].get? 1 ∧
    (heapMerge [wbA, wbB] 0 [1]).1.get? 0 = some (wbA.merge [wbB]) :=
  ⟨(merge_returns_receiver_reads_args [wbA, wbB] 0 [1] wbA [wbB]
      (by decide) (by decide) rfl rfl).1,
   (merge_returns_receiver_reads_args [wbA, wbB] 0 [1] wbA [wbB]
      (by decide) (by decide) rfl rfl).2.1 1 (by decide),
   (merge_returns_receiver_reads_args [wbA, wbB] 0 [1] wbA [wbB]
      (by decide) (by decide) rfl rfl).2.2⟩

/-! ### C5 -/

/-- The `Track.color` validator's condition: each channel in `[0, 255]`. -/
def colorOkb : Option (Nat × Nat × Nat) → Bool
  | Option.none => true
  | some c => decide (c.1 ≤ 255) && decide (c.2.1 ≤ 255) && decide (c.2.2 ≤ 255)

/-- A builder is well formed when every track's color passes the validator
(guaranteed at construction time by pydantic). -/
def builderWFb (b : HubBuilderM E) : Bool :=
  b.tracks.all (fun t => colorOkb t.color)

theorem mapM_jsonAsStr (l : List String) :
    exceptMapM jsonAsStr (l.map Json.str) = Except.ok l := by
  induction l with
  | nil => rfl
  | cons a l ih => simp [exceptMapM, ih, jsonAsStr, consE_ok]

theorem jsonAsStrList_roundtrip (l : List String) :
    jsonAsStrList (Json.arr (l.map Json.str)) = Except.ok l := by
  simp [jsonAsStrList, mapM_jsonAsStr]

theorem jsonAsStrMap_roundtrip (m : List (String × String)) :
    jsonAsStrMap (Json.obj (m.map (fun p => (p.1, Json.str p.2)))) = Except.ok m := by
  induction m with
  | nil => rfl
  | cons p m ih =>
    obtain ⟨k, v⟩ := p
    simp only [jsonAsStrMap] at ih
    have h1 : jsonAsStrMap (Json.obj (((k, v) :: m).map (fun q => (q.1, Json.str q.2)))) =
        consE (Except.ok (k, v))
          (exceptMapM (fun p => Except.map (fun v => (p.1, v)) (jsonAsStr p.2))
            (m.map (fun q => (q.1, Json.str q.2)))) := rfl
    rw [h1, ih, consE_ok]

theorem jsonAsOptStr_roundtrip (x : Option String) :
    jsonAsOptStr (optStrJson x) = Except.ok x := by
  cases x <;> rfl

theorem jsonAsColor_roundtrip (c : Option (Nat × Nat × Nat))
    (h : colorOkb c = true) : jsonAsColor (colorToJson c) = Except.ok c := by
  cases c with
  | none => rfl
  | some c =>
    obtain ⟨r, g, b⟩ := c
    simp only [colorOkb, Bool.and_eq_true, decide_eq_true_eq] at h
    obtain ⟨⟨hr, hg⟩, hb⟩ := h
    have hr0 : (0 : Int) ≤ (r : Int) := Int.natCast_nonneg r
    have hg0 : (0 : Int) ≤ (g : Int) := Int.natCast_nonneg g
    have hb0 : (0 : Int) ≤ (b : Int) := Int.natCast_nonneg b
    have hr1 : (r : Int) ≤ 255 := by exact_mod_cast hr
    have hg1 : (g : Int) ≤ 255 := by exact_mod_cast hg
    have hb1 : (b : Int) ≤ 255 := by exact_mod_cast hb
    simp [colorToJson, jsonAsColor, jsonAsChannel, hr0, hg0, hb0, hr1, hg1, hb1,
      bind, Except.bind, pure, Except.pure]

theorem track_roundtrip (t : TrackM) (h : colorOkb t.color = true) :
    trackFromJson (trackToJson t) = Except.ok t := by
  obtain ⟨p, nm, md, col, tt⟩ := t
  have hskel : trackFromJson (trackToJson ⟨p, nm, md, col, tt⟩) =
      (jsonAsOptStr (optStrJson nm)).bind (fun nm2 =>
      (jsonAsStrMap (Json.obj (md.map (fun q => (q.1, Json.str q.2))))).bind (fun md2 =>
      (jsonAsColor (colorToJson col)).bind (fun col2 =>
      (jsonAsOptStr (optStrJson tt)).bind (fun tt2 =>
      Except.ok ⟨p, nm2, md2, col2, tt2⟩)))) := rfl
  rw [hskel, jsonAsOptStr_roundtrip, jsonAsStrMap_roundtrip,
    jsonAsColor_roundtrip col h, jsonAsOptStr_roundtrip]
  rfl

theorem tracks_roundtrip (ts : List TrackM)
    (h : ts.all (fun t => colorOkb t.color) = true) :
    exceptMapM trackFromJson (ts.map trackToJson) = Except.ok ts := by
  induction ts with
  | nil => rfl
  | cons t ts ih =>
    simp only [List.all_cons, Bool.and_eq_true] at h
    simp [exceptMapM, track_roundtrip t h.1, ih h.2, consE_ok]

/-- C5: deserializing the serialized sidecar document reconstructs the
builder exactly — same track list (path, name, metadata, color, track type
per track), same axis declarations, same conversion settings — except that
the non-serializable metadata extractors come back empty. -/
theorem sidecar_roundtrip {E : Type} (b : HubBuilderM E)
    (h : builderWFb b = true) :
    builderFromJson (builderToJson b) =
      Except.ok { b with metadata_extractors := ([] : List E) } := by
  obtain ⟨ts, gcols, sgcols, ocols, ccol, cpal, conv, chrom, cfg, exs⟩ := b
  have hskel : builderFromJson (E := E) (builderToJson
      ⟨ts, gcols, sgcols, ocols, ccol, cpal, conv, chrom, cfg, exs⟩) =
      (exceptMapM trackFromJson (ts.map trackToJson)).bind (fun ts2 =>
      (jsonAsStrList (Json.arr (gcols.map Json.str))).bind (fun g2 =>
      (jsonAsStrList (Json.arr (sgcols.map Json.str))).bind (fun sg2 =>
      (jsonAsStrList (Json.arr (ocols.map Json.str))).bind (fun o2 =>
      (jsonAsOptStr (optStrJson ccol)).bind (fun c2 =>
      (jsonAsOptStr (optStrJson chrom)).bind (fun ch2 =>
      Except.ok ⟨ts2, g2, sg2, o2, c2, cpal, conv, ch2, cfg, []⟩)))))) := rfl
  rw [hskel, tracks_roundtrip ts h, jsonAsStrList_roundtrip,
    jsonAsStrList_roundtrip, jsonAsStrList_roundtrip, jsonAsOptStr_roundtrip,
    jsonAsOptStr_roundtrip]
  rfl

/-- A concrete builder exercising every serialized field. -/
def wbC5 : HubBuilderM Unit :=
  ⟨[⟨("/data/a.bw"), some ("trackA"), [(("assay"), ("ATAC"))], some (1, 2, 3),
     some ("bigWig")⟩],
   [("assay")], [("cell")], [("mark")], some ("assay"), ("tab20"), true,
   some ("hg38.chrom.sizes"), [(("custom_genome"), Json.boolean true)], [()]⟩

/-- Witness for C5 on a fully populated builder. -/
theorem sidecar_roundtrip_witness :
    builderFromJson (builderToJson wbC5) =
      Except.ok { wbC5 with metadata_extractors := ([] : List Unit) } :=
  sidecar_roundtrip wbC5 (by decide)

/-! ### C8 -/

/-- The state produced by one loop iteration when both container lookups
succeed (which the design-construction asserts guarantee). -/
def processRowOk (overlays : List (String × String)) (st : HubState)
    (r : HubRow) : HubState :=
  let st1 := match r.composite with
    | some ck => { st with compositeSubs := dictAppendRow ck r st.compositeSubs }
    | Option.none => st
  let st2 := match r.overlay with
    | some okk =>
        if r.ext = ("bigWig") then
          { st1 with overlaySubs := dictAppendRow okk r st1.overlaySubs }
        else
          { st1 with warnings := st1.warnings ++
              [(r.name, ((dictLookup okk overlays).getD ("")))] }
    | Option.none => st1
  if r.supertrack.isNone && !r.composite.isSome && !r.overlay.isSome then
    { st2 with rootTracks := st2.rootTracks ++ [r] }
  else st2

/-- The rows the loop warns about: overlay-tagged, format not `bigWig`. -/
def overlayWarnPred (r : HubRow) : Bool :=
  r.overlay.isSome && !(decide (r.ext = ("bigWig")))

/-- The rows attached to overlay `k`: tagged with `k` and of format
`bigWig`. -/
def overlayKeepPred (k : String) (r : HubRow) : Bool :=
  decide (r.overlay = some k) && decide (r.ext = ("bigWig"))

/-- The recorded warning for a skipped row: its name with the overlay's
name. -/
def warnEntry (overlays : List (String × String)) (r : HubRow) :
    String × String :=
  (r.name, ((r.overlay.bind (fun k => dictLookup k overlays)).getD ("")))

theorem processRow_eq (composites overlays : List (String × String))
    (st : HubState) (r : HubRow)
    (hc : ∀ ck, r.composite = some ck → (dictLookup ck composites).isSome = true)
    (ho : ∀ okk, r.overlay = some okk → (dictLookup okk overlays).isSome = true) :
    processRow composites overlays st r =
      Except.ok (processRowOk overlays st r) := by
  obtain ⟨nm, ext, sup, comp, ov⟩ := r
  cases comp with
  | some ck =>
    obtain ⟨cname, hcn⟩ := Option.isSome_iff_exists.mp (hc ck rfl)
    cases ov with
    | some okk =>
      obtain ⟨oname, hon⟩ := Option.isSome_iff_exists.mp (ho okk rfl)
      by_cases hext : ext = ("bigWig") <;>
        simp [processRow, processRowOk, hcn, hon, hext, bind, Except.bind,
          pure, Except.pure]
    | none =>
      simp [processRow, processRowOk, hcn, bind, Except.bind, pure, Except.pure]
  | none =>
    cases ov with
    | some okk =>
      obtain ⟨oname, hon⟩ := Option.isSome_iff_exists.mp (ho okk rfl)
      by_cases hext : ext = ("bigWig") <;>
        simp [processRow, processRowOk, hon, hext, bind, Except.bind,
          pure, Except.pure]
    | none =>
      by_cases hs : sup.isNone = true <;>
        simp [processRow, processRowOk, bind, Except.bind, pure, Except.pure, hs]

theorem processRowOk_warnings (overlays : List (String × String))
    (st : HubState) (r : HubRow) :
    (processRowOk overlays st r).warnings = st.warnings ++
      (if overlayWarnPred r then [warnEntry overlays r] else []) := by
  obtain ⟨nm, ext, sup, comp, ov⟩ := r
  cases comp <;> cases ov <;> by_cases hext : ext = ("bigWig") <;>
    simp [processRowOk, overlayWarnPred, warnEntry, hext] <;> split <;> simp

theorem processRowOk_overlaySubs_none (overlays : List (String × String))
    (st : HubState) (r : HubRow) (hov : r.overlay = Option.none) :
    (processRowOk overlays st r).overlaySubs = st.overlaySubs := by
  obtain ⟨nm, ext, sup, comp, ov⟩ := r
  cases hov
  cases comp <;> simp [processRowOk] <;> split <;> simp

theorem processRowOk_overlaySubs_sig (overlays : List (String × String))
    (st : HubState) (r : HubRow) (okk : String) (hov : r.overlay = some okk)
    (hext : r.ext = ("bigWig")) :
    (processRowOk overlays st r).overlaySubs = dictAppendRow okk r st.overlaySubs := by
  obtain ⟨nm, ext, sup, comp, ov⟩ := r
  cases hov
  cases hext
  cases comp <;> simp [processRowOk]

theorem processRowOk_overlaySubs_warn (overlays : List (String × String))
    (st : HubState) (r : HubRow) (okk : String) (hov : r.overlay = some okk)
    (hext : ¬ r.ext = ("bigWig")) :
    (processRowOk overlays st r).overlaySubs = st.overlaySubs := by
  obtain ⟨nm, ext, sup, comp, ov⟩ := r
  cases hov
  cases comp <;> simp_all [processRowOk]

theorem dictLookup_dictAppendRow (k k2 : String) (r : HubRow)
    (d : List (String × List HubRow)) :
    dictLookup k (dictAppendRow k2 r d) =
      if k = k2 then (dictLookup k d).map (fun l => l ++ [r])
      else dictLookup k d := by
  induction d with
  | nil => by_cases h : k = k2 <;> simp [dictAppendRow, dictLookup, h]
  | cons p d ih =>
    obtain ⟨pk, pl⟩ := p
    by_cases h1 : pk = k2
    · subst h1
      by_cases h2 : k = pk
      · subst h2
        simp [dictAppendRow, dictLookup]
      · have h2s : ¬ pk = k := fun hh => h2 hh.symm
        simp [dictAppendRow, dictLookup, h2, h2s]
    · by_cases h2 : pk = k
      · subst h2
        have h1s : ¬ pk = k2 := h1
        simp [dictAppendRow, dictLookup, h1s, fun hh : pk = k2 => h1 hh]
      · have h2s : ¬ pk = k := h2
        simp [dictAppendRow, dictLookup, h1, h2s, ih]

theorem filter_keep_cons_none (k : String) (r : HubRow) (rows : List HubRow)
    (hov : r.overlay = Option.none) :
    (r :: rows).filter (overlayKeepPred k) = rows.filter (overlayKeepPred k) := by
  rw [List.filter_cons]
  simp [overlayKeepPred, hov]

theorem addTracksFold (composites overlays : List (String × String)) :
    ∀ (rows : List HubRow) (st0 : HubState),
    (∀ r ∈ rows, ∀ ck, r.composite = some ck →
      (dictLookup ck composites).isSome = true) →
    (∀ r ∈ rows, ∀ okk, r.overlay = some okk →
      (dictLookup okk overlays).isSome = true) →
    ∃ st, exceptFoldl (processRow composites overlays) st0 rows = Except.ok st ∧
      st.warnings = st0.warnings ++
        (rows.filter overlayWarnPred).map (warnEntry overlays) ∧
      ∀ k, dictLookup k st.overlaySubs = (dictLookup k st0.overlaySubs).map
        (fun l => l ++ rows.filter (overlayKeepPred k)) := by
  intro rows
  induction rows with
  | nil =>
    intro st0 hc ho
    refine ⟨st0, rfl, by simp, ?_⟩
    intro k
    cases dictLookup k st0.overlaySubs <;> simp
  | cons r rows ih =>
    intro st0 hc ho
    have hstep := processRow_eq composites overlays st0 r
      (hc r (List.mem_cons_self r rows)) (ho r (List.mem_cons_self r rows))
    obtain ⟨st, hfold, hwarn, hsubs⟩ := ih (processRowOk overlays st0 r)
      (fun q hq => hc q (List.mem_cons_of_mem r hq))
      (fun q hq => ho q (List.mem_cons_of_mem r hq))
    refine ⟨st, ?_, ?_, ?_⟩
    · rw [exceptFoldl, hstep]
      exact hfold
    · rw [hwarn, processRowOk_warnings]
      by_cases hpred : overlayWarnPred r = true
      · rw [if_pos hpred, List.filter_cons, if_pos hpred]
        simp
      · rw [if_neg hpred, List.filter_cons, if_neg hpred]
        simp
    · intro k
      cases hov : r.overlay with
      | none =>
        rw [hsubs k, processRowOk_overlaySubs_none overlays st0 r hov,
          filter_keep_cons_none k r rows hov]
      | some okk =>
        by_cases hext : r.ext = ("bigWig")
        · rw [hsubs k, processRowOk_overlaySubs_sig overlays st0 r okk hov hext,
            dictLookup_dictAppendRow]
          by_cases hk : k = okk
          · subst hk
            have hfilt : (r :: rows).filter (overlayKeepPred k) =
                r :: rows.filter (overlayKeepPred k) := by
              rw [List.filter_cons, if_pos (by simp [overlayKeepPred, hov, hext])]
            rw [if_pos rfl, hfilt]
            cases dictLookup k st0.overlaySubs <;> simp
          · have hfilt : (r :: rows).filter (overlayKeepPred k) =
                rows.filter (overlayKeepPred k) := by
              rw [List.filter_cons, if_neg ?hcond]
              case hcond =>
                simp only [overlayKeepPred, hov, Bool.and_eq_true,
                  decide_eq_true_eq]
                rintro ⟨he, _⟩
                exact hk (Option.some.inj he).symm
            rw [if_neg hk, hfilt]
        · have hfilt : (r :: rows).filter (overlayKeepPred k) =
              rows.filter (overlayKeepPred k) := by
            rw [List.filter_cons, if_neg ?hcond2]
            case hcond2 =>
              simp only [overlayKeepPred, Bool.and_eq_true, decide_eq_true_eq]
              rintro ⟨_, he⟩
              exact hext he
          rw [hsubs k, processRowOk_overlaySubs_warn overlays st0 r okk hov hext,
            hfilt]

theorem dictLookup_map_nil (k : String) (overlays : List (String × String)) :
    dictLookup k (overlays.map (fun p => (p.1, ([] : List HubRow)))) =
      (dictLookup k overlays).map (fun _ => ([] : List HubRow)) := by
  induction overlays with
  | nil => rfl
  | cons p d ih =>
    by_cases h : p.1 = k <;> simp [dictLookup, h, ih]

/-- C8: during assembly, every overlay-tagged row whose resolved format is
not `bigWig` is left out of its overlay's subtrack list and produces exactly
one logged warning (one warning entry per such row, in row order), `bigWig`
rows are attached, and the loop itself never fails when the design's
container-membership asserts held. -/
theorem overlay_non_signal_excluded (rows : List HubRow)
    (composites overlays : List (String × String))
    (hc : rows.all (fun r => match r.composite with
      | some ck => (dictLookup ck composites).isSome
      | Option.none => true) = true)
    (ho : rows.all (fun r => match r.overlay with
      | some okk => (dictLookup okk overlays).isSome
      | Option.none => true) = true) :
    ∃ st, addTracksToHub rows composites overlays = Except.ok st ∧
      st.warnings = (rows.filter overlayWarnPred).map (warnEntry overlays) ∧
      (∀ k, dictLookup k st.overlaySubs = (dictLookup k overlays).map
        (fun _ => rows.filter (overlayKeepPred k))) ∧
      (∀ r ∈ rows, r.ext ≠ ("bigWig") →
        ∀ k l, dictLookup k st.overlaySubs = some l → r ∉ l) := by
  have hc2 : ∀ r ∈ rows, ∀ ck, r.composite = some ck →
      (dictLookup ck composites).isSome = true := by
    intro r hr ck hck
    have h1 := List.all_eq_true.mp hc r hr
    rw [hck] at h1
    exact h1
  have ho2 : ∀ r ∈ rows, ∀ okk, r.overlay = some okk →
      (dictLookup okk overlays).isSome = true := by
    intro r hr okk hok
    have h1 := List.all_eq_true.mp ho r hr
    rw [hok] at h1
    exact h1
  obtain ⟨st, hfold, hwarn, hsubs⟩ := addTracksFold composites overlays rows
    ⟨[], composites.map (fun p => (p.1, [])), overlays.map (fun p => (p.1, [])), []⟩
    hc2 ho2
  have hsubs2 : ∀ k, dictLookup k st.overlaySubs = (dictLookup k overlays).map
      (fun _ => rows.filter (overlayKeepPred k)) := by
    intro k
    rw [hsubs k]
    have hbase : dictLookup k
        (⟨[], composites.map (fun p => (p.1, [])),
          overlays.map (fun p => (p.1, [])), []⟩ : HubState).overlaySubs =
        (dictLookup k overlays).map (fun _ => ([] : List HubRow)) :=
      dictLookup_map_nil k overlays
    rw [hbase]
    cases dictLookup k overlays <;> simp
  refine ⟨st, hfold, by simpa using hwarn, hsubs2, ?_⟩
  intro r hr hext k l hl
  rw [hsubs2 k] at hl
  cases hlk : dictLookup k overlays with
  | none => rw [hlk] at hl; simp at hl
  | some nm =>
    rw [hlk] at hl
    simp only [Option.map_some, Option.map_some'] at hl
    intro hmem
    rw [← Option.some.inj hl] at hmem
    have hkeep := (List.mem_filter.mp hmem).2
    simp only [overlayKeepPred, Bool.and_eq_true, decide_eq_true_eq] at hkeep
    exact hext hkeep.2

/-- Rows for the C8 witness: a signal row and a non-signal row, both tagged
into overlay `k1`. -/
def wrows : List HubRow :=
  [⟨("t1"), ("bigWig"), Option.none, Option.none, some ("k1")⟩,
   ⟨("t2"), ("bigBed"), Option.none, Option.none, some ("k1")⟩]

/-- Witness for C8: the loop succeeds and logs exactly the one warning for
the non-signal row. -/
theorem overlay_non_signal_excluded_witness :
    (addTracksToHub wrows [] [(("k1"), ("ov"))]).map HubState.warnings =
      Except.ok [(("t2"), ("ov"))] := by
  obtain ⟨st, h1, h2, _, _⟩ :=
    overlay_non_signal_excluded wrows [] [(("k1"), ("ov"))] (by decide) (by decide)
  rw [h1, Except.map, h2]
  rfl

/-! ### Table access lemmas (for C2 and C6) -/

theorem colIdx_lt (c : String) :
    ∀ (l : List String) (i : Nat), colIdx c l = some i → i < l.length := by
  intro l
  induction l with
  | nil => intro i h; simp [colIdx] at h
  | cons a l ih =>
    intro i h
    by_cases ha : a = c
    · simp only [colIdx, if_pos ha, Option.some.injEq] at h
      simp only [List.length_cons]
      omega
    · simp only [colIdx, if_neg ha] at h
      cases hj : colIdx c l with
      | none => rw [hj] at h; simp at h
      | some j =>
        rw [hj] at h
        simp only [Option.map_some, Option.map_some', Option.some.injEq] at h
        have := ih j hj
        simp only [List.length_cons]
        omega

theorem colIdx_append_some (c : String) (l1 l2 : List String) (i : Nat)
    (h : colIdx c l1 = some i) : colIdx c (l1 ++ l2) = some i := by
  induction l1 generalizing i with
  | nil => simp [colIdx] at h
  | cons a l ih =>
    rw [List.cons_append]
    by_cases ha : a = c
    · simp only [colIdx, if_pos ha] at h ⊢
      exact h
    · simp only [colIdx, if_neg ha] at h ⊢
      cases hj : colIdx c l with
      | none => rw [hj] at h; simp at h
      | some j =>
        rw [hj] at h
        rw [ih j hj]
        exact h

theorem colIdx_none_iff (c : String) :
    ∀ (l : List String), colIdx c l = Option.none ↔ c ∉ l := by
  intro l
  induction l with
  | nil => simp [colIdx]
  | cons a l ih =>
    by_cases ha : a = c
    · subst ha
      simp [colIdx]
    · simp only [colIdx, if_neg ha, List.mem_cons]
      cases hj : colIdx c l with
      | none =>
        simp only [Option.map_none, Option.map_none']
        constructor
        · intro _
          rintro (h1 | h1)
          · exact ha h1.symm
          · exact (ih.mp hj) h1
        · intro _
          trivial
      | some j =>
        simp only [Option.map_some, Option.map_some']
        constructor
        · intro h
          cases h
        · intro h
          exfalso
          apply h
          right
          by_contra hc
          rw [ih.mpr hc] at hj
          cases hj

theorem colIdx_append_not_mem (c : String) (l1 l2 : List String)
    (h : c ∉ l1) :
    colIdx c (l1 ++ l2) = (colIdx c l2).map (fun i => i + l1.length) := by
  induction l1 with
  | nil =>
    simp only [List.nil_append, List.length_nil]
    cases colIdx c l2 <;> simp
  | cons a l ih =>
    have ha : ¬ a = c := fun he => h (he ▸ List.mem_cons_self a l)
    have hl : c ∉ l := fun hm => h (List.mem_cons_of_mem a hm)
    rw [List.cons_append]
    simp only [colIdx, if_neg ha, ih hl, List.length_cons]
    cases colIdx c l2 with
    | none => simp
    | some j =>
      simp only [Option.map_some, Option.map_some', Option.some.injEq]
      omega

theorem getCell_append_old (cols : List String) (row : List Cell)
    (n : String) (x : Cell) (c : String) (hc : c ∈ cols)
    (hr : row.length = cols.length) :
    getCell (cols ++ [n]) (row ++ [x]) c = getCell cols row c := by
  have hsome : (colIdx c cols).isSome = true := by
    by_contra h
    rw [Option.not_isSome_iff_eq_none] at h
    exact (colIdx_none_iff c cols).mp h hc
  obtain ⟨i, hi⟩ := Option.isSome_iff_exists.mp hsome
  have hlt : i < cols.length := colIdx_lt c cols i hi
  rw [getCell, getCell, colIdx_append_some c cols [n] i hi, hi]
  show ((row ++ [x]).get? i).getD Option.none = (row.get? i).getD Option.none
  rw [List.get?_eq_getElem?, List.get?_eq_getElem?,
    List.getElem?_append_left (by omega)]

theorem getCell_append_new (cols : List String) (row : List Cell)
    (n : String) (v : String) (hn : n ∉ cols) (hr : row.length = cols.length) :
    getCell (cols ++ [n]) (row ++ [some v]) n = some v := by
  rw [getCell, colIdx_append_not_mem n cols [n] hn]
  have h1 : colIdx n [n] = some 0 := by simp [colIdx]
  rw [h1]
  simp only [Option.map_some, Option.map_some']
  show ((row ++ [some v]).get? (0 + cols.length)).getD Option.none = some v
  rw [List.get?_eq_getElem?, List.getElem?_append_right (by omega)]
  simp [hr]

theorem rowTuple_addColumn (cols : List String) (row : List Cell)
    (n : String) (x : Cell) (sel : List String) (hsel : ∀ c ∈ sel, c ∈ cols)
    (hr : row.length = cols.length) :
    rowTuple (cols ++ [n]) sel (row ++ [x]) = rowTuple cols sel row := by
  unfold rowTuple
  exact List.map_congr_left (fun c hc => getCell_append_old cols row n x c (hsel c hc) hr)

theorem addColumn_rows_of_map (tbl : Table) (n : String)
    (f : List Cell → String) :
    (addColumn tbl n (tbl.rows.map f)).rows =
      tbl.rows.map (fun r => r ++ [some (f r)]) := by
  unfold addColumn
  have h1 : tbl.rows.zip (tbl.rows.map f) = tbl.rows.map (fun r => (r, f r)) := by
    have h2 := List.zip_map' id f tbl.rows
    simpa using h2
  rw [h1, List.map_map]
  rfl

/-! Dict lemmas -/

theorem dictInsert_of_fresh {β : Type} (k : String) (v : β)
    (d : List (String × β)) (h : k ∉ d.map Prod.fst) :
    dictInsert k v d = d ++ [(k, v)] := by
  induction d with
  | nil => rfl
  | cons p d ih =>
    have hne : p.1 ≠ k := by
      intro he
      exact h (by simp [he])
    have h2 : k ∉ d.map Prod.fst := fun hm => h (by simp [hm])
    simp [dictInsert, hne, ih h2]

theorem dictLookup_isSome_of_mem_keys {β : Type} (k : String)
    (d : List (String × β)) (h : k ∈ d.map Prod.fst) :
    (dictLookup k d).isSome = true := by
  induction d with
  | nil => simp at h
  | cons p d ih =>
    by_cases he : p.1 = k
    · simp [dictLookup, he]
    · simp only [List.map_cons, List.mem_cons] at h
      rcases h with h | h
      · exact absurd h.symm he
      · simp [dictLookup, he, ih h]

theorem mem_keys_dictInsert {β : Type} (k k2 : String) (v : β)
    (d : List (String × β)) :
    k ∈ (dictInsert k2 v d).map Prod.fst ↔ k = k2 ∨ k ∈ d.map Prod.fst := by
  induction d with
  | nil => simp [dictInsert]
  | cons p d ih =>
    by_cases he : p.1 = k2
    · subst he
      simp [dictInsert]
    · simp only [dictInsert, if_neg he, List.map_cons, List.mem_cons, ih]
      tauto

theorem dictInsert_val_mem {β : Type} (k : String) (v : β)
    (d : List (String × β)) (q : String × β) (h : q ∈ dictInsert k v d) :
    q = (k, v) ∨ q ∈ d := by
  induction d with
  | nil => simpa [dictInsert] using h
  | cons p d ih =>
    by_cases he : p.1 = k
    · rw [dictInsert, if_pos he] at h
      rcases List.mem_cons.mp h with h1 | h1
      · exact Or.inl h1
      · exact Or.inr (List.mem_cons_of_mem p h1)
    · rw [dictInsert, if_neg he] at h
      rcases List.mem_cons.mp h with h1 | h1
      · exact Or.inr (h1 ▸ List.mem_cons_self p d)
      · rcases ih h1 with h2 | h2
        · exact Or.inl h2
        · exact Or.inr (List.mem_cons_of_mem p h2)

theorem foldl_dictInsert_fresh {β : Type} (kf : List Cell → String)
    (vf : List Cell → β) :
    ∀ (K : List (List Cell)) (acc : List (String × β)),
    K.Pairwise (fun t1 t2 => kf t1 ≠ kf t2) →
    (∀ t ∈ K, kf t ∉ acc.map Prod.fst) →
    K.foldl (fun d t => dictInsert (kf t) (vf t) d) acc =
      acc ++ K.map (fun t => (kf t, vf t)) := by
  intro K
  induction K with
  | nil => intro acc _ _; simp
  | cons t K ih =>
    intro acc hpw hfresh
    rw [List.foldl_cons,
      dictInsert_of_fresh (kf t) (vf t) acc (hfresh t (List.mem_cons_self t K))]
    rw [List.pairwise_cons] at hpw
    have hfresh2 : ∀ q ∈ K, kf q ∉ (acc ++ [(kf t, vf t)]).map Prod.fst := by
      intro q hq
      simp only [List.map_append, List.mem_append, List.map_cons, List.map_nil,
        List.mem_singleton, List.mem_cons]
      rintro (hm | hm)
      · exact hfresh q (List.mem_cons_of_mem t hq) hm
      · simp at hm
        exact hpw.1 q hq hm.symm
    rw [ih (acc ++ [(kf t, vf t)]) hpw.2 hfresh2]
    simp

/-! Group-key lemmas -/

theorem mem_sortedGroupKeys_iff (tbl : Table) (sel : List String)
    (t : List Cell) :
    t ∈ sortedGroupKeys tbl sel ↔
      ((∃ r ∈ tbl.rows, t = rowTuple tbl.cols sel r) ∧ t.all Option.isSome = true) := by
  unfold sortedGroupKeys
  rw [List.mem_insertionSort, List.mem_dedup, List.mem_filter]
  constructor
  · rintro ⟨hm, hall⟩
    obtain ⟨r, hr, hrt⟩ := List.mem_map.mp hm
    exact ⟨⟨r, hr, hrt.symm⟩, hall⟩
  · rintro ⟨⟨r, hr, hrt⟩, hall⟩
    exact ⟨List.mem_map.mpr ⟨r, hr, hrt.symm⟩, hall⟩

theorem dedup_map_injective {α β : Type} [DecidableEq α] [DecidableEq β]
    (f : α → β) (hf : Function.Injective f) :
    ∀ (l : List α), (l.map f).dedup = l.dedup.map f := by
  intro l
  induction l with
  | nil => rfl
  | cons a l ih =>
    by_cases hm : a ∈ l
    · rw [List.map_cons, List.dedup_cons_of_mem (List.mem_map_of_mem f hm),
        List.dedup_cons_of_mem hm, ih]
    · have hfm : f a ∉ l.map f := by
        intro hmem
        exact hm ((List.mem_map_of_injective hf).mp hmem)
      rw [List.map_cons, List.dedup_cons_of_not_mem hfm,
        List.dedup_cons_of_not_mem hm, ih, List.map_cons]

theorem exceptFoldl_ok {σ α : Type} (f : σ → α → Except String σ) :
    ∀ (l : List α) (s0 : σ),
    (∀ s a, a ∈ l → ∃ s2, f s a = Except.ok s2) →
    ∃ s, exceptFoldl f s0 l = Except.ok s := by
  intro l
  induction l with
  | nil => intro s0 _; exact ⟨s0, rfl⟩
  | cons a l ih =>
    intro s0 h
    obtain ⟨s1, hs1⟩ := h s0 a (List.mem_cons_self a l)
    obtain ⟨s2, hs2⟩ := ih s1 (fun s q hq => h s q (List.mem_cons_of_mem a hq))
    refine ⟨s2, ?_⟩
    rw [exceptFoldl, hs1]
    exact hs2

theorem exceptFoldl_invariant {σ α : Type} (f : σ → α → Except String σ)
    (Inv : σ → Prop) (hstep : ∀ s a s2, Inv s → f s a = Except.ok s2 → Inv s2) :
    ∀ (l : List α) (s0 res : σ), Inv s0 →
      exceptFoldl f s0 l = Except.ok res → Inv res := by
  intro l
  induction l with
  | nil =>
    intro s0 res h0 hres
    cases hres
    exact h0
  | cons a l ih =>
    intro s0 res h0 hres
    rw [exceptFoldl] at hres
    cases hs1 : f s0 a with
    | error e => rw [hs1] at hres; cases hres
    | ok s1 =>
      rw [hs1] at hres
      exact ih s1 res (hstep s0 a s1 h0 hs1) hres

theorem foldl_invariant {σ α : Type} (f : σ → α → σ) (Inv : σ → Prop)
    (hstep : ∀ s a, Inv s → Inv (f s a)) :
    ∀ (l : List α) (s0 : σ), Inv s0 → Inv (l.foldl f s0) := by
  intro l
  induction l with
  | nil => intro s0 h0; exact h0
  | cons a l ih =>
    intro s0 h0
    rw [List.foldl_cons]
    exact ih (f s0 a) (hstep s0 a h0)

/-! ### C2 -/

theorem sortedGroupKeys_single (tbl : Table) (c : String)
    (hnn : ∀ r ∈ tbl.rows, (getCell tbl.cols r c).isSome = true) :
    sortedGroupKeys tbl [c] =
      List.insertionSort (fun a b => tupleLeb a b = true)
        (((tbl.rows.map (fun r => getCell tbl.cols r c)).dedup).map
          (fun v => [v])) := by
  unfold sortedGroupKeys
  have h1 : tbl.rows.map (rowTuple tbl.cols [c]) =
      (tbl.rows.map (fun r => getCell tbl.cols r c)).map (fun v => [v]) := by
    rw [List.map_map]
    rfl
  have h2 : ((tbl.rows.map (fun r => getCell tbl.cols r c)).map
      (fun v => [v])).filter (fun t => t.all Option.isSome) =
      (tbl.rows.map (fun r => getCell tbl.cols r c)).map (fun v => [v]) := by
    rw [List.filter_eq_self]
    intro t ht
    obtain ⟨v, hv, hvt⟩ := List.mem_map.mp ht
    obtain ⟨r, hr, hrv⟩ := List.mem_map.mp hv
    subst hvt
    simp only [List.all_cons, List.all_nil, Bool.and_true]
    rw [← hrv]
    exact hnn r hr
  rw [h1, h2, dedup_map_injective (fun v => [v]) (fun a b h => by simpa using h)]

theorem compositeStep_ok_shape (ST : List (String × String))
    (subcols : List String) (acc d2 : List (String × CompositeT))
    (g : List Cell) (h : compositeStep ST subcols acc g = Except.ok d2) :
    ∃ k v, d2 = dictInsert k v acc := by
  rcases g with _ | ⟨st, _ | ⟨ext, _ | ⟨x, rest⟩⟩⟩
  · cases h
  · cases h
  · rw [compositeStep] at h
    cases hlk : dictLookup (st.getD ("")) ST with
    | none => rw [hlk] at h; cases h
    | some stName =>
      rw [hlk] at h
      exact ⟨_, _, (Except.ok.inj h).symm⟩
  · cases h

theorem compositeFold_keys_mono (ST : List (String × String))
    (subcols : List String) :
    ∀ (G : List (List Cell)) (acc res : List (String × CompositeT)),
    exceptFoldl (compositeStep ST subcols) acc G = Except.ok res →
    ∀ k, k ∈ acc.map Prod.fst → k ∈ res.map Prod.fst := by
  intro G
  induction G with
  | nil =>
    intro acc res h k hk
    cases h
    exact hk
  | cons g G ih =>
    intro acc res h k hk
    rw [exceptFoldl] at h
    cases hstep : compositeStep ST subcols acc g with
    | error e => rw [hstep] at h; cases h
    | ok acc2 =>
      rw [hstep] at h
      obtain ⟨k2, v2, hacc2⟩ := compositeStep_ok_shape ST subcols acc acc2 g hstep
      refine ih acc2 res h k ?_
      rw [hacc2, mem_keys_dictInsert]
      exact Or.inr hk

theorem compositeFold_keys (ST : List (String × String))
    (subcols : List String) :
    ∀ (G : List (List Cell)) (acc res : List (String × CompositeT)),
    exceptFoldl (compositeStep ST subcols) acc G = Except.ok res →
    ∀ g ∈ G, ∀ a b, g = [some a, some b] →
      get_hash [Scalar.str a, Scalar.str b] ∈ res.map Prod.fst := by
  intro G
  induction G with
  | nil =>
    intro acc res _ g hg
    simp at hg
  | cons g0 G ih =>
    intro acc res h g hg a b hgab
    rw [exceptFoldl] at h
    cases hstep : compositeStep ST subcols acc g0 with
    | error e => rw [hstep] at h; cases h
    | ok acc2 =>
      rw [hstep] at h
      rcases List.mem_cons.mp hg with heq | hmem
      · subst heq
        subst hgab
        rw [compositeStep] at hstep
        cases hlk : dictLookup ((some a).getD ("")) ST with
        | none => rw [hlk] at hstep; cases hstep
        | some stName =>
          rw [hlk] at hstep
          have hacc2 : acc2 = dictInsert
              (get_hash [Scalar.str ((some a).getD ("")),
                Scalar.str ((some b).getD (""))])
              (mkComposite (stName ++ "_" ++ ((some b).getD (""))) ((some b).getD (""))
                subcols) acc := (Except.ok.inj hstep).symm
          refine compositeFold_keys_mono ST subcols G acc2 res h _ ?_
          rw [hacc2, mem_keys_dictInsert]
          exact Or.inl rfl
      · exact ih acc2 res h g hmem a b hgab

/-- C2: compiling a table whose single declared supergroup column takes
`N` distinct (non-null) values yields exactly `N` SuperTracks, each keyed by
`get_hash` of its defining one-value tuple and named by that value (the
`_`-join of a one-tuple), and every row's supertrack tag is the key of one
of them. -/
theorem supertrack_partition (tbl : Table) (c : String)
    (hc : c ∈ tbl.cols)
    (hext : ("ext") ∈ tbl.cols)
    (hnosup : ("supertrack") ∉ tbl.cols)
    (hrect : ∀ r ∈ tbl.rows, r.length = tbl.cols.length)
    (hnn : ∀ r ∈ tbl.rows, (getCell tbl.cols r c).isSome = true ∧
      (getCell tbl.cols r ("ext")).isSome = true)
    (hinj : (sortedGroupKeys tbl [c]).Pairwise
      (fun t1 t2 => tupleHash t1 ≠ tupleHash t2)) :
    ∃ d, compileDesign tbl [] [c] [] = Except.ok d ∧
      d.superTracks.length =
        ((tbl.rows.map (fun r => getCell tbl.cols r c)).dedup).length ∧
      (∀ p ∈ d.superTracks, ∃ v,
        some v ∈ tbl.rows.map (fun r => getCell tbl.cols r c) ∧
        p = (get_hash [Scalar.str v], v)) ∧
      (∀ v, some v ∈ tbl.rows.map (fun r => getCell tbl.cols r c) →
        (get_hash [Scalar.str v], v) ∈ d.superTracks) ∧
      (∀ tg ∈ get_hash_for_df tbl [c], tg ∈ d.superTracks.map Prod.fst) := by
  have hK := sortedGroupKeys_single tbl c (fun r hr => (hnn r hr).1)
  -- The supertrack dict is the keyed list over the sorted distinct tuples.
  have hSTeq : (sortedGroupKeys tbl [c]).foldl
      (fun d t => dictInsert (tupleHash t) (superName t) d) [] =
      (sortedGroupKeys tbl [c]).map (fun t => (tupleHash t, superName t)) := by
    have h := foldl_dictInsert_fresh tupleHash superName
      (sortedGroupKeys tbl [c]) [] hinj (by simp)
    simpa using h
  have hs2 : getSuperTracks tbl [c] = Except.ok
      ((sortedGroupKeys tbl [c]).map (fun t => (tupleHash t, superName t))) := by
    unfold getSuperTracks
    rw [if_neg (by simp), if_pos (by simp [hc]), hSTeq]
  have hs3 : addSupertrackIndicators tbl [c] = Except.ok
      (addColumn tbl ("supertrack") (get_hash_for_df tbl [c])) := by
    unfold addSupertrackIndicators
    rw [if_neg (by simp), if_pos (by simp [hc])]
  set STval := (sortedGroupKeys tbl [c]).map
    (fun t => (tupleHash t, superName t)) with hSTval
  set tbl2 := addColumn tbl ("supertrack") (get_hash_for_df tbl [c]) with htbl2
  have htbl2cols : tbl2.cols = tbl.cols ++ [("supertrack")] := rfl
  have htbl2rows : tbl2.rows = tbl.rows.map
      (fun r => r ++ [some (tupleHash (rowTuple tbl.cols [c] r))]) := by
    rw [htbl2]
    exact addColumn_rows_of_map tbl ("supertrack")
      (fun r => tupleHash (rowTuple tbl.cols [c] r))
  -- Tuples over the grouped columns of the extended table.
  have hcell2 : ∀ r ∈ tbl.rows,
      getCell tbl2.cols (r ++ [some (tupleHash (rowTuple tbl.cols [c] r))])
          ("supertrack") = some (tupleHash (rowTuple tbl.cols [c] r)) ∧
      getCell tbl2.cols (r ++ [some (tupleHash (rowTuple tbl.cols [c] r))])
          ("ext") = getCell tbl.cols r ("ext") := by
    intro r hr
    constructor
    · rw [htbl2cols]
      exact getCell_append_new tbl.cols r ("supertrack") _ hnosup (hrect r hr)
    · rw [htbl2cols]
      exact getCell_append_old tbl.cols r ("supertrack") _ ("ext") hext (hrect r hr)
  have hmemK : ∀ r ∈ tbl.rows, rowTuple tbl.cols [c] r ∈ sortedGroupKeys tbl [c] := by
    intro r hr
    rw [mem_sortedGroupKeys_iff]
    refine ⟨⟨r, hr, rfl⟩, ?_⟩
    show ([getCell tbl.cols r c].all Option.isSome) = true
    simp [(hnn r hr).1]
  have hkeymem : ∀ r ∈ tbl.rows,
      tupleHash (rowTuple tbl.cols [c] r) ∈ STval.map Prod.fst := by
    intro r hr
    rw [hSTval, List.map_map]
    exact List.mem_map.mpr ⟨rowTuple tbl.cols [c] r, hmemK r hr, rfl⟩
  have hgshape : ∀ g ∈ sortedGroupKeys tbl2 [("supertrack"), ("ext")],
      ∃ a b, g = [some a, some b] ∧ (dictLookup a STval).isSome = true := by
    intro g hg
    rw [mem_sortedGroupKeys_iff] at hg
    obtain ⟨⟨r2, hr2, hgr⟩, hall⟩ := hg
    rw [htbl2rows] at hr2
    obtain ⟨r, hr, hrr2⟩ := List.mem_map.mp hr2
    subst hrr2
    have hc2 := hcell2 r hr
    have hgr2 : g = [some (tupleHash (rowTuple tbl.cols [c] r)),
        getCell tbl.cols r ("ext")] := by
      rw [hgr]
      show [getCell tbl2.cols _ ("supertrack"), getCell tbl2.cols _ ("ext")] = _
      rw [hc2.1, hc2.2]
    obtain ⟨ev, hev⟩ := Option.isSome_iff_exists.mp (hnn r hr).2
    refine ⟨tupleHash (rowTuple tbl.cols [c] r), ev, ?_, ?_⟩
    · rw [hgr2, hev]
    · exact dictLookup_isSome_of_mem_keys _ _ (hkeymem r hr)
  have hs4 : ∃ comps, getCompositeTracks tbl2 STval [] = Except.ok comps := by
    unfold getCompositeTracks
    rw [if_pos (by rw [htbl2cols]; simp)]
    refine exceptFoldl_ok _ _ [] ?_
    intro dacc g hg
    obtain ⟨a, b, hgab, hlk⟩ := hgshape g hg
    obtain ⟨stName, hstn⟩ := Option.isSome_iff_exists.mp hlk
    subst hgab
    refine ⟨dictInsert (get_hash [Scalar.str a, Scalar.str b])
      (mkComposite (stName ++ ("_") ++ b) b []) dacc, ?_⟩
    simp only [compositeStep, Option.getD_some, hstn]
  obtain ⟨comps, hcomps⟩ := hs4
  have hcomps2 : exceptFoldl (compositeStep STval []) []
      (sortedGroupKeys tbl2 [("supertrack"), ("ext")]) = Except.ok comps := by
    have h := hcomps
    rw [getCompositeTracks, if_pos (by rw [htbl2cols]; simp)] at h
    exact h
  have hs5 : ∃ tbl3, addCompositeIndicators tbl2 comps [c] = Except.ok tbl3 := by
    unfold addCompositeIndicators
    by_cases hemp : comps.isEmpty
    · rw [if_pos hemp]
      exact ⟨tbl2, rfl⟩
    · rw [if_neg hemp]
      have hall : (get_hash_for_df tbl2
          ((if List.isEmpty [c] then [] else [("supertrack")]) ++ [("ext")])).all
          (fun t => (dictLookup t comps).isSome) = true := by
        have hsel : ((if List.isEmpty [c] then [] else [("supertrack")]) ++ [("ext")] :
            List String) = [("supertrack"), ("ext")] := by simp
        rw [hsel, List.all_eq_true]
        intro tg htg
        obtain ⟨r2, hr2, htgr⟩ := List.mem_map.mp htg
        rw [htbl2rows] at hr2
        obtain ⟨r, hr, hrr2⟩ := List.mem_map.mp hr2
        subst hrr2
        have hc2 := hcell2 r hr
        obtain ⟨ev, hev⟩ := Option.isSome_iff_exists.mp (hnn r hr).2
        have hgr2 : rowTuple tbl2.cols [("supertrack"), ("ext")]
            (r ++ [some (tupleHash (rowTuple tbl.cols [c] r))]) =
            [some (tupleHash (rowTuple tbl.cols [c] r)), some ev] := by
          show [getCell tbl2.cols _ ("supertrack"), getCell tbl2.cols _ ("ext")] = _
          rw [hc2.1, hc2.2, hev]
        have hgmem : rowTuple tbl2.cols [("supertrack"), ("ext")]
            (r ++ [some (tupleHash (rowTuple tbl.cols [c] r))]) ∈
            sortedGroupKeys tbl2 [("supertrack"), ("ext")] := by
          rw [mem_sortedGroupKeys_iff]
          refine ⟨⟨r ++ [some (tupleHash (rowTuple tbl.cols [c] r))], ?_, rfl⟩, ?_⟩
          · rw [htbl2rows]
            exact List.mem_map.mpr ⟨r, hr, rfl⟩
          · rw [hgr2]
            simp
        have hkey := compositeFold_keys STval []
          (sortedGroupKeys tbl2 [("supertrack"), ("ext")]) [] comps hcomps2
          _ hgmem (tupleHash (rowTuple tbl.cols [c] r)) ev hgr2
        have htg2 : tg = get_hash
            [Scalar.str (tupleHash (rowTuple tbl.cols [c] r)), Scalar.str ev] := by
          rw [← htgr, hgr2]
          rfl
        rw [htg2]
        exact dictLookup_isSome_of_mem_keys _ comps hkey
      rw [if_pos hall]
      exact ⟨_, rfl⟩
  obtain ⟨tbl3, htbl3⟩ := hs5
  have e1 : compileDesign tbl [] [c] [] =
      (getSuperTracks tbl [c]).bind (fun sts =>
      (addSupertrackIndicators tbl [c]).bind (fun t2 =>
      (getCompositeTracks t2 sts []).bind (fun comps2 =>
      (addCompositeIndicators t2 comps2 [c]).bind (fun t3 =>
      (getOverlayTracks t3 sts []).bind (fun ovs =>
      (addOverlayIndicators t3 ovs [] [c]).bind (fun t4 =>
      Except.ok ⟨t4, sts, comps2, ovs⟩)))))) := rfl
  have hcompile : compileDesign tbl [] [c] [] =
      Except.ok ⟨tbl3, STval, comps, []⟩ := by
    rw [e1, hs2]
    simp only [Except.bind]
    rw [hs3]
    simp only [Except.bind]
    rw [hcomps]
    simp only [Except.bind]
    rw [htbl3]
    simp only [Except.bind]
    rfl
  refine ⟨⟨tbl3, STval, comps, []⟩, hcompile, ?_, ?_, ?_, ?_⟩
  · show STval.length = _
    rw [hSTval, List.length_map, hK, List.length_insertionSort, List.length_map]
  · intro p hp
    rw [hSTval] at hp
    obtain ⟨t, htK, hpt⟩ := List.mem_map.mp hp
    rw [hK, List.mem_insertionSort] at htK
    obtain ⟨cv, hcv, hcvt⟩ := List.mem_map.mp htK
    have hcv2 : cv ∈ tbl.rows.map (fun r => getCell tbl.cols r c) :=
      List.mem_dedup.mp hcv
    obtain ⟨r, hr, hrcv⟩ := List.mem_map.mp hcv2
    have hcs : cv.isSome = true := by
      rw [← hrcv]
      exact (hnn r hr).1
    obtain ⟨v, hv⟩ := Option.isSome_iff_exists.mp hcs
    refine ⟨v, ?_, ?_⟩
    · rw [← hv]
      exact hcv2
    · rw [← hpt, ← hcvt, hv]
      rfl
  · intro v hv
    rw [hSTval]
    refine List.mem_map.mpr ⟨[some v], ?_, rfl⟩
    rw [hK, List.mem_insertionSort]
    exact List.mem_map.mpr ⟨some v, List.mem_dedup.mpr hv, rfl⟩
  · intro tg htg
    obtain ⟨r, hr, htgr⟩ := List.mem_map.mp htg
    show tg ∈ STval.map Prod.fst
    rw [hSTval, List.map_map]
    exact List.mem_map.mpr ⟨rowTuple tbl.cols [c] r, hmemK r hr, htgr⟩

/-- The C2 witness table: one supergroup column `cond` with distinct values
`A` and `B` over three rows. -/
def tblC2 : Table :=
  ⟨[("cond"), ("ext")],
   [[some ("A"), some ("bigWig")], [some ("B"), some ("bigWig")],
    [some ("A"), some ("bigWig")]]⟩

/-- The design compiled from the C2 witness table. -/
def dC2 : Design :=
  (compileDesign tblC2 [] [("cond")] []).toOption.getD ⟨⟨[], []⟩, [], [], []⟩

/-- Witness for C2: two distinct values give exactly two SuperTracks with
the expected keys and names, and a row tag resolves among the keys. -/
theorem supertrack_partition_witness :
    dC2.superTracks.length = 2 ∧
    (get_hash [Scalar.str ("A")], ("A")) ∈ dC2.superTracks ∧
    (get_hash [Scalar.str ("B")], ("B")) ∈ dC2.superTracks ∧
    get_hash [Scalar.str ("A")] ∈ dC2.superTracks.map Prod.fst := by
  obtain ⟨d, hok, h1, h2, h3, h4⟩ := supertrack_partition tblC2 ("cond")
    (by decide) (by decide) (by decide) (by decide) (by decide) (by decide)
  have he : compileDesign tblC2 [] [("cond")] [] = Except.ok dC2 := rfl
  rw [he] at hok
  have hd : d = dC2 := (Except.ok.inj hok).symm
  rw [hd] at h1 h3 h4
  refine ⟨?_, h3 ("A") (by decide), h3 ("B") (by decide),
    h4 (get_hash [Scalar.str ("A")]) (by decide)⟩
  rw [h1]
  decide

/-! ### C6 (amended) -/

theorem zip_take_spec {α β : Type} :
    ∀ (l2 : List β) (l1 : List α), l2.length ≤ l1.length →
    (l1.zip l2).map Prod.fst = l1.take l2.length ∧
    (l1.zip l2).map Prod.snd = l2 := by
  intro l2
  induction l2 with
  | nil => intro l1 _; simp
  | cons b l2 ih =>
    intro l1 h
    cases l1 with
    | nil => simp at h
    | cons a l1 =>
      simp only [List.zip_cons_cons, List.map_cons, List.length_cons,
        List.take_succ_cons]
      have hih := ih l1 (by simpa using h)
      exact ⟨by rw [hih.1], by rw [hih.2]⟩

theorem compileDesign_eq (tbl : Table) (sub sup ov : List String) :
    compileDesign tbl sub sup ov =
      (checkSubgroupings tbl sub sup).bind (fun _ =>
      (getSuperTracks tbl sup).bind (fun sts =>
      (addSupertrackIndicators tbl sup).bind (fun t2 =>
      (getCompositeTracks t2 sts sub).bind (fun comps =>
      (addCompositeIndicators t2 comps sup).bind (fun t3 =>
      (getOverlayTracks t3 sts ov).bind (fun ovs =>
      (addOverlayIndicators t3 ovs ov sup).bind (fun t4 =>
      Except.ok ⟨t4, sts, comps, ovs⟩))))))) := rfl

theorem compileDesign_composites_inv (tbl : Table) (sub sup ov : List String)
    (d : Design) (h : compileDesign tbl sub sup ov = Except.ok d) :
    ∃ sts t2, getSuperTracks tbl sup = Except.ok sts ∧
      addSupertrackIndicators tbl sup = Except.ok t2 ∧
      getCompositeTracks t2 sts sub = Except.ok d.compositeTracks := by
  rw [compileDesign_eq] at h
  cases h1 : checkSubgroupings tbl sub sup with
  | error e => rw [h1] at h; cases h
  | ok u =>
    rw [h1] at h
    simp only [Except.bind] at h
    cases h2 : getSuperTracks tbl sup with
    | error e => rw [h2] at h; cases h
    | ok sts =>
      rw [h2] at h
      simp only [Except.bind] at h
      cases h3 : addSupertrackIndicators tbl sup with
      | error e => rw [h3] at h; cases h
      | ok t2 =>
        rw [h3] at h
        simp only [Except.bind] at h
        cases h4 : getCompositeTracks t2 sts sub with
        | error e => rw [h4] at h; cases h
        | ok comps =>
          rw [h4] at h
          simp only [Except.bind] at h
          cases h5 : addCompositeIndicators t2 comps sup with
          | error e => rw [h5] at h; cases h
          | ok t3 =>
            rw [h5] at h
            simp only [Except.bind] at h
            cases h6 : getOverlayTracks t3 sts ov with
            | error e => rw [h6] at h; cases h
            | ok ovs =>
              rw [h6] at h
              simp only [Except.bind] at h
              cases h7 : addOverlayIndicators t3 ovs ov sup with
              | error e => rw [h7] at h; cases h
              | ok t4 =>
                rw [h7] at h
                simp only [Except.bind] at h
                have hd := Except.ok.inj h
                refine ⟨sts, t2, rfl, rfl, ?_⟩
                rw [← hd]
                exact h4

theorem compositeStep_ok_shape2 (ST : List (String × String))
    (subcols : List String) (acc d2 : List (String × CompositeT))
    (g : List Cell) (h : compositeStep ST subcols acc g = Except.ok d2) :
    ∃ k v, d2 = dictInsert k v acc ∧
      CompositeT.dimensions v = dimensionsStr subcols := by
  rcases g with _ | ⟨st, _ | ⟨ext, _ | ⟨x, rest⟩⟩⟩
  · cases h
  · cases h
  · rw [compositeStep] at h
    cases hlk : dictLookup (st.getD ("")) ST with
    | none => rw [hlk] at h; cases h
    | some stName =>
      rw [hlk] at h
      exact ⟨_, _, (Except.ok.inj h).symm, rfl⟩
  · cases h

theorem getCompositeTracks_dims (tbl : Table) (sts : List (String × String))
    (sub : List String) (comps : List (String × CompositeT))
    (h : getCompositeTracks tbl sts sub = Except.ok comps) :
    ∀ p ∈ comps, CompositeT.dimensions p.2 = dimensionsStr sub := by
  unfold getCompositeTracks at h
  by_cases hsup : decide (("supertrack") ∈ tbl.cols) = true
  · rw [if_pos hsup] at h
    refine exceptFoldl_invariant (compositeStep sts sub)
      (fun dd => ∀ p ∈ dd, CompositeT.dimensions p.2 = dimensionsStr sub)
      ?_ _ [] comps (by simp) h
    intro s g s2 hs hstep
    obtain ⟨k, v, hv, hdim⟩ := compositeStep_ok_shape2 sts sub s s2 g hstep
    intro p hp
    rw [hv] at hp
    rcases dictInsert_val_mem k v s p hp with h1 | h1
    · rw [h1]
      exact hdim
    · exact hs p h1
  · rw [if_neg hsup] at h
    by_cases hsub : sub.isEmpty
    · rw [if_pos hsub] at h
      have hd := Except.ok.inj h
      intro p hp
      rw [← hd] at hp
      simp at hp
    · rw [if_neg hsub] at h
      have hd := Except.ok.inj h
      intro p hp
      rw [← hd] at hp
      refine foldl_invariant _
        (fun dd => ∀ p ∈ dd, CompositeT.dimensions p.2 = dimensionsStr sub)
        ?_ _ [] (by simp) p hp
      intro s g hs q hq
      rcases dictInsert_val_mem (tupleHash g)
        (mkComposite ((g.headD Option.none).getD ("")) ((g.headD Option.none).getD (""))
          sub) s q hq with h1 | h1
      · rw [h1]
        rfl
      · exact hs q h1

/-- C6 amended: declaring more than six group columns is not rejected — the
dimension string is built from `zip`, silently dropping every column after
the sixth; with at most six declared, every compiled Composite's dimension
string assigns the declared group columns, in declaration order, to the
fixed slots `dimX, dimY, dimA, dimB, dimC, dimD`. -/
theorem dims_in_declaration_order (tbl : Table) (sub sup ov : List String)
    (d : Design) (hok : compileDesign tbl sub sup ov = Except.ok d) :
    (∀ p ∈ d.compositeTracks, CompositeT.dimensions p.2 = dimensionsStr sub) ∧
    (sub.length ≤ 6 →
      (dimensionsDict sub).map Prod.fst = dimSlots.take sub.length ∧
      (dimensionsDict sub).map Prod.snd = sub) := by
  constructor
  · obtain ⟨sts, t2, _, _, hcomp⟩ :=
      compileDesign_composites_inv tbl sub sup ov d hok
    exact getCompositeTracks_dims t2 sts sub d.compositeTracks hcomp
  · intro h6
    have hlen : dimSlots.length = 6 := rfl
    have h := zip_take_spec sub dimSlots (by omega)
    exact ⟨h.1, h.2⟩

/-- The C6-amended witness table: two group columns. -/
def tblC6w : Table :=
  ⟨[("ext"), ("s1"), ("s2")], [[some ("bigWig"), some ("x"), some ("y")]]⟩

/-- The design compiled from the C6-amended witness table. -/
def dC6w : Design :=
  (compileDesign tblC6w [("s1"), ("s2")] [] []).toOption.getD ⟨⟨[], []⟩, [], [], []⟩

/-- Witness for the amended C6 at two declared group columns. -/
theorem dims_in_declaration_order_witness :
    (dimensionsDict [("s1"), ("s2")]).map Prod.fst = dimSlots.take 2 ∧
    (dimensionsDict [("s1"), ("s2")]).map Prod.snd = [("s1"), ("s2")] :=
  (dims_in_declaration_order tblC6w [("s1"), ("s2")] [] [] dC6w rfl).2 (by decide)

end Tracknado